import Mathlib

/-!
GOarticles: the article submission service.

A shallow embedding of `src/main.go` (the persistent variant) and of the upload
naming of `src/1/main.go`, together with the library functions they call
(`strconv.Itoa`, `filepath.Ext`, `filepath.Join`, `unicode/utf8`, `encoding/json`
for the type `[]Article`).

Go strings are byte sequences; they are embedded as lists of byte values.
-/

namespace GOarticles

/-- A Go string: its bytes in order, each a number below 256. -/
abbrev GoString := List Nat

/-- The bytes of an ASCII string literal of the source. -/
def lit (s : String) : GoString := s.toList.map Char.toNat

/-! ## strconv -/

/-- Decimal digits of `n`, most significant first, pushed in front of `acc`;
`fuel` bounds the number of digits. -/
def digitsAux : Nat → Nat → GoString → GoString
  | 0, _, acc => acc
  | fuel + 1, n, acc =>
    if n < 10 then (48 + n) :: acc else digitsAux fuel (n / 10) ((48 + n % 10) :: acc)

/-- Decimal text of a natural number. -/
def formatNat (n : Nat) : GoString := digitsAux (n + 1) n []

/-- The function `strconv.Itoa` (also what `%d` prints): a minus sign for a negative
number, then the decimal digits of the magnitude. -/
def Itoa (i : Int) : GoString :=
  if i < 0 then 45 :: formatNat i.natAbs else formatNat i.natAbs

/-! ## path/filepath (Unix: the separator is `/`) -/

/-- Backward scan of `filepath.Ext`: `rev` is the unread part of the path, last
byte first, `acc` the bytes already passed. -/
def extScan : GoString → GoString → GoString
  | [], _ => []
  | c :: rev, acc =>
    if c = 47 then []
    else if c = 46 then c :: acc
    else extScan rev (c :: acc)

/-- The function `filepath.Ext`: the suffix beginning at the final dot of the final
element of the path, empty when that element has no dot. -/
def Ext (path : GoString) : GoString := extScan path.reverse []

/-- Inner loop of `filepath.Clean` copying one real path element: returns the
output buffer (last byte first) and the unread rest. -/
def copyElem : GoString → GoString → GoString × GoString
  | [], out => (out, [])
  | c :: rest, out => if c = 47 then (out, c :: rest) else copyElem rest (c :: out)

/-- Backtracking of `filepath.Clean` on a `..` element. The argument is the output
buffer, last byte first, whose head is the byte under examination (index `w` after
`out.w--`); bytes are dropped while the remaining length exceeds `dotdot` and the
examined byte is no separator. The result is the buffer of length `w`. -/
def backtrack : Nat → GoString → GoString
  | _, [] => []
  | dotdot, c :: out =>
    if out.length > dotdot ∧ c ≠ 47 then backtrack dotdot out else out

/-- Main loop of `filepath.Clean`. `out` is the output buffer, last byte first;
`dotdot` is the length of the buffer below which `..` cannot backtrack. -/
def cleanLoop : Nat → Bool → GoString → GoString → Nat → GoString
  | 0, _, _, out, _ => out
  | _ + 1, _, [], out, _ => out
  | fuel + 1, rooted, 47 :: rest, out, dotdot => cleanLoop fuel rooted rest out dotdot
  | fuel + 1, rooted, [46], out, dotdot => cleanLoop fuel rooted [] out dotdot
  | fuel + 1, rooted, 46 :: 47 :: rest, out, dotdot =>
    cleanLoop fuel rooted (47 :: rest) out dotdot
  | fuel + 1, rooted, c :: rest, out, dotdot =>
    if c = 46 ∧ (rest = [46] ∨ rest.take 2 = [46, 47]) then
      let rest2 := rest.drop 1
      if out.length > dotdot then
        cleanLoop fuel rooted rest2 (backtrack dotdot out) dotdot
      else if !rooted then
        let out2 := 46 :: 46 :: (if out.length > 0 then 47 :: out else out)
        cleanLoop fuel rooted rest2 out2 out2.length
      else cleanLoop fuel rooted rest2 out dotdot
    else
      let out1 :=
        if (rooted ∧ out.length ≠ 1) ∨ (!rooted ∧ out.length ≠ 0) then 47 :: out else out
      let r := copyElem (c :: rest) out1
      cleanLoop fuel rooted r.2 r.1 dotdot

/-- The function `filepath.Clean`: the shortest path equivalent to `path` by purely
lexical processing. -/
def Clean (path : GoString) : GoString :=
  if path = [] then [46]
  else
    let rooted := path.head? = some 47
    let out :=
      if rooted then cleanLoop path.length true (path.drop 1) [47] 1
      else cleanLoop path.length false path [] 0
    if out = [] then [46] else out.reverse

/-- The function `filepath.Join` on two elements: empty elements are ignored, the
others are joined with a separator and the result is cleaned. -/
def Join (a b : GoString) : GoString :=
  if a = [] ∧ b = [] then []
  else if a = [] then Clean b
  else if b = [] then Clean a
  else Clean (a ++ 47 :: b)

/-! ## unicode/utf8 -/

/-- The constant `utf8.RuneError`, the replacement character U+FFFD. -/
def RuneError : Nat := 0xFFFD

/-- Continuation byte test: `locb <= b && b <= hicb`. -/
def isCont (b : Nat) : Bool := 0x80 ≤ b && b ≤ 0xBF

/-- Lower bound of the accept range for the second byte (table `acceptRanges`
selected by `first[s0]`). -/
def acceptLo (s0 : Nat) : Nat :=
  if s0 = 0xE0 then 0xA0 else if s0 = 0xF0 then 0x90 else 0x80

/-- Upper bound of the accept range for the second byte. -/
def acceptHi (s0 : Nat) : Nat :=
  if s0 = 0xED then 0x9F else if s0 = 0xF4 then 0x8F else 0xBF

/-- Sequence length announced by a leading byte (`first[s0] & 7`): 1 for ASCII,
0 for a byte that cannot start a sequence (`xx`), else 2, 3 or 4. -/
def seqLen (s0 : Nat) : Nat :=
  if s0 < 0x80 then 1
  else if 0xC2 ≤ s0 ∧ s0 ≤ 0xDF then 2
  else if 0xE0 ≤ s0 ∧ s0 ≤ 0xEF then 3
  else if 0xF0 ≤ s0 ∧ s0 ≤ 0xF4 then 4
  else 0

/-- The function `utf8.DecodeRuneInString` (and `utf8.DecodeRune`): the first rune of
`s` and its width in bytes; `(RuneError, 0)` for the empty string and
`(RuneError, 1)` for an invalid encoding. Masks and shifts are written
arithmetically: `s0 & mask2 = s0 % 32`, `s & maskx = s % 64`, `x << 6 = x * 64`. -/
def DecodeRune : GoString → Nat × Nat
  | [] => (RuneError, 0)
  | s0 :: rest =>
    if s0 < 0x80 then (s0, 1)
    else if seqLen s0 = 0 then (RuneError, 1)
    else if rest.length + 1 < seqLen s0 then (RuneError, 1)
    else
      match rest with
      | [] => (RuneError, 1)
      | s1 :: rest1 =>
        if s1 < acceptLo s0 ∨ acceptHi s0 < s1 then (RuneError, 1)
        else if seqLen s0 ≤ 2 then ((s0 % 32) * 64 + s1 % 64, 2)
        else
          match rest1 with
          | [] => (RuneError, 1)
          | s2 :: rest2 =>
            if !isCont s2 then (RuneError, 1)
            else if seqLen s0 ≤ 3 then ((s0 % 16) * 4096 + (s1 % 64) * 64 + s2 % 64, 3)
            else
              match rest2 with
              | [] => (RuneError, 1)
              | s3 :: _ =>
                if !isCont s3 then (RuneError, 1)
                else ((s0 % 8) * 262144 + (s1 % 64) * 4096 + (s2 % 64) * 64 + s3 % 64, 4)

/-- The function `utf8.EncodeRune` for a rune given as a non-negative number: the
UTF-8 bytes of `r`, those of U+FFFD for a surrogate or a value above `MaxRune`. -/
def EncodeRune (r : Nat) : GoString :=
  if r ≤ 0x7F then [r]
  else if r ≤ 0x7FF then [0xC0 + r / 64, 0x80 + r % 64]
  else if r > 0x10FFFF ∨ (0xD800 ≤ r ∧ r ≤ 0xDFFF) then [0xEF, 0xBF, 0xBD]
  else if r ≤ 0xFFFF then [0xE0 + r / 4096, 0x80 + r / 64 % 64, 0x80 + r % 64]
  else [0xF0 + r / 262144, 0x80 + r / 4096 % 64, 0x80 + r / 64 % 64, 0x80 + r % 64]

/-- Loop of `utf8.ValidString`: every position decodes to a rune. -/
def validLoop : Nat → GoString → Bool
  | 0, s => s = []
  | _ + 1, [] => true
  | fuel + 1, c :: rest =>
    let d := DecodeRune (c :: rest)
    if d.1 = RuneError ∧ d.2 = 1 then false else validLoop fuel ((c :: rest).drop d.2)

/-- The function `utf8.ValidString`: the bytes are entirely valid UTF-8. -/
def ValidString (s : GoString) : Bool := validLoop s.length s

/-! ## encoding/json, encoder -/

/-- The table `hex` of the encoder: the lower-case hexadecimal digit of `d`. -/
def hexDigit (d : Nat) : Nat := if d < 10 then 48 + d else 87 + d

/-- The table `htmlSafeSet`: the ASCII bytes the encoder copies unchanged when
HTML escaping is on (the default of `json.Marshal`): the bytes from the space to
0x7F except the double quote, the backslash, `<`, `>` and `&`. -/
def htmlSafe (b : Nat) : Bool :=
  0x20 ≤ b && b < 0x80 && b != 34 && b != 92 && b != 60 && b != 62 && b != 38

/-- Escape sequence the encoder writes for an ASCII byte outside `htmlSafeSet`. -/
def escapeByte (b : Nat) : GoString :=
  if b = 92 ∨ b = 34 then [92, b]
  else if b = 8 then [92, 98]
  else if b = 12 then [92, 102]
  else if b = 10 then [92, 110]
  else if b = 13 then [92, 114]
  else if b = 9 then [92, 116]
  else [92, 117, 48, 48, hexDigit (b / 16), hexDigit (b % 16)]

/-- Loop of the encoder's `appendString` over the source bytes, without the
surrounding quotes. Invalid UTF-8 is replaced by the escape of U+FFFD, and
U+2028 and U+2029 are escaped. -/
def appendStringLoop : Nat → GoString → GoString
  | 0, _ => []
  | _ + 1, [] => []
  | fuel + 1, b :: rest =>
    if b < 0x80 then
      if htmlSafe b then b :: appendStringLoop fuel rest
      else escapeByte b ++ appendStringLoop fuel rest
    else
      let d := DecodeRune ((b :: rest).take 4)
      if d.1 = RuneError ∧ d.2 = 1 then
        lit "\\ufffd" ++ appendStringLoop fuel rest
      else if d.1 = 0x2028 ∨ d.1 = 0x2029 then
        [92, 117, 50, 48, 50, hexDigit (d.1 % 16)] ++
          appendStringLoop fuel ((b :: rest).drop d.2)
      else (b :: rest).take d.2 ++ appendStringLoop fuel ((b :: rest).drop d.2)

/-- The encoder's `appendString` with HTML escaping: a JSON string literal. -/
def appendString (src : GoString) : GoString :=
  34 :: (appendStringLoop src.length src ++ [34])

/-- Type `Article` of `src/main.go`: the record kept in the list and in
`articles.json` (`ID` is a Go `int`, 64 bits wide). -/
structure Article where
  ID : Int
  Title : GoString
  deriving DecidableEq, Repr

/-- Encoding of one `Article` by `json.Marshal`: the fields in declaration order under
their tags `id` and `title`. -/
def marshalArticle (a : Article) : GoString :=
  lit "\x7b\"id\":" ++ Itoa a.ID ++ lit ",\"title\":" ++ appendString a.Title ++ [125]

/-- Elements of a JSON array after the first, each preceded by a comma. -/
def marshalTail : List Article → GoString
  | [] => []
  | a :: l => 44 :: (marshalArticle a ++ marshalTail l)

/-- The function `json.Marshal` at type `[]Article` (it has no error case at this
type). The empty list stands for the nil slice, encoded as `null`. -/
def Marshal : List Article → GoString
  | [] => lit "null"
  | a :: l => 91 :: (marshalArticle a ++ marshalTail l ++ [93])

/-! ## encoding/json, decoder

The decoder is modelled on compact documents of the shape `Marshal` writes: `null`,
or an array of objects with the members `id` and `title` in this order and no
insignificant white space. Any other document is outside the model and yields
`none`, as does a document the library rejects. String literals are decoded in
full (`unquote`). -/

/-- Value of a hexadecimal digit, as in `getu4`. -/
def hexVal (c : Nat) : Option Nat :=
  if 48 ≤ c ∧ c ≤ 57 then some (c - 48)
  else if 97 ≤ c ∧ c ≤ 102 then some (c - 97 + 10)
  else if 65 ≤ c ∧ c ≤ 70 then some (c - 65 + 10)
  else none

/-- The decoder's `getu4`: the number written by a `\uXXXX` escape at the start of
`s`, `none` where the library returns -1. -/
def getu4 : GoString → Option Nat
  | 92 :: 117 :: c0 :: c1 :: c2 :: c3 :: _ =>
    match hexVal c0, hexVal c1, hexVal c2, hexVal c3 with
    | some d0, some d1, some d2, some d3 => some (((d0 * 16 + d1) * 16 + d2) * 16 + d3)
    | _, _, _, _ => none
  | _ => none

/-- The function `utf16.IsSurrogate`. -/
def isSurrogate (r : Nat) : Bool := 0xD800 ≤ r && r < 0xE000

/-- The function `utf16.DecodeRune` with `none` for a missing second half: the code
point of a surrogate pair, U+FFFD when the pair is not valid. -/
def utf16Decode (r1 : Nat) (r2 : Option Nat) : Nat :=
  match r2 with
  | some r2 =>
    if 0xD800 ≤ r1 ∧ r1 < 0xDC00 ∧ 0xDC00 ≤ r2 ∧ r2 < 0xE000 then
      (r1 - 0xD800) * 1024 + (r2 - 0xDC00) + 0x10000
    else 0xFFFD
  | none => 0xFFFD

/-- Prepends decoded bytes to the result of decoding the rest. -/
def emit (bs : GoString) (r : Option (GoString × GoString)) : Option (GoString × GoString) :=
  r.map fun p => (bs ++ p.1, p.2)

/-- Decoding of a string literal after its opening quote (the scanner's string
states together with `unquote`): the decoded bytes and the input after the closing
quote. Escapes are resolved, a control byte or a bad escape is an error, bytes that
are not valid UTF-8 are replaced by U+FFFD. -/
def unquoteLoop : Nat → GoString → Option (GoString × GoString)
  | 0, _ => none
  | _ + 1, [] => none
  | fuel + 1, c :: rest =>
    if c = 34 then some ([], rest)
    else if c = 92 then
      match rest with
      | [] => none
      | e :: rest1 =>
        if e = 34 ∨ e = 92 ∨ e = 47 then emit [e] (unquoteLoop fuel rest1)
        else if e = 98 then emit [8] (unquoteLoop fuel rest1)
        else if e = 102 then emit [12] (unquoteLoop fuel rest1)
        else if e = 110 then emit [10] (unquoteLoop fuel rest1)
        else if e = 114 then emit [13] (unquoteLoop fuel rest1)
        else if e = 116 then emit [9] (unquoteLoop fuel rest1)
        else if e = 117 then
          match getu4 (c :: rest) with
          | none => none
          | some rr =>
            let rest6 := rest.drop 5
            if isSurrogate rr then
              let dec := utf16Decode rr (getu4 rest6)
              if dec ≠ 0xFFFD then emit (EncodeRune dec) (unquoteLoop fuel (rest6.drop 6))
              else emit (EncodeRune 0xFFFD) (unquoteLoop fuel rest6)
            else emit (EncodeRune rr) (unquoteLoop fuel rest6)
        else none
    else if c < 0x20 then none
    else if c < 0x80 then emit [c] (unquoteLoop fuel rest)
    else
      let d := DecodeRune (c :: rest)
      emit (EncodeRune d.1) (unquoteLoop fuel ((c :: rest).drop d.2))

/-- A JSON string literal at the start of `s`: its decoded bytes and the rest. -/
def parseString : GoString → Option (GoString × GoString)
  | 34 :: rest => unquoteLoop rest.length rest
  | _ => none

/-- Reads the decimal digits at the start of the input: their value on top of
`acc`, and the rest. -/
def parseDigits : GoString → Nat → Nat × GoString
  | [], acc => (acc, [])
  | c :: rest, acc =>
    if 48 ≤ c ∧ c ≤ 57 then parseDigits rest (acc * 10 + (c - 48)) else (acc, c :: rest)

/-- A JSON number at the start of `s`, as the scanner delimits it
and `strconv.ParseInt(..., 10, 64)` reads it into an `int` field: an optional minus
sign and digits without a superfluous leading zero. A fraction or an exponent (no
`int`), and a value outside 64 bits, are errors. -/
def parseInt (s : GoString) : Option (Int × GoString) :=
  let neg := s.head? = some 45
  let body := if neg then s.drop 1 else s
  match body with
  | [] => none
  | c :: rest =>
    if ¬ (48 ≤ c ∧ c ≤ 57) then none
    else if c = 48 ∧ (∃ d ∈ rest.head?, 48 ≤ d ∧ d ≤ 57) then none
    else
      let r := parseDigits (c :: rest) 0
      if r.2.head? = some 46 ∨ r.2.head? = some 101 ∨ r.2.head? = some 69 then none
      else
        let v : Int := if neg then -(r.1 : Int) else (r.1 : Int)
        if -(2 : Int) ^ 63 ≤ v ∧ v < (2 : Int) ^ 63 then some (v, r.2) else none

/-- Removes the literal `p` from the start of `s`, `none` when `s` does not start
with it. -/
def expect : GoString → GoString → Option GoString
  | [], s => some s
  | _ :: _, [] => none
  | c :: p, d :: s => if c = d then expect p s else none

/-- One object in the shape `marshalArticle` writes, at the start of `s`. -/
def parseArticle (s : GoString) : Option (Article × GoString) :=
  match expect (lit "\x7b\"id\":") s with
  | none => none
  | some s1 =>
    match parseInt s1 with
    | none => none
    | some (id, s2) =>
      match expect (lit ",\"title\":") s2 with
      | none => none
      | some s3 =>
        match parseString s3 with
        | none => none
        | some (title, s4) =>
          match s4 with
          | 125 :: s5 => some ({ ID := id, Title := title }, s5)
          | _ => none

/-- Array elements from the start of an element up to the closing bracket. -/
def parseElems : Nat → GoString → Option (List Article × GoString)
  | 0, _ => none
  | fuel + 1, s =>
    match parseArticle s with
    | none => none
    | some (a, rest) =>
      match rest with
      | 44 :: rest1 => (parseElems fuel rest1).map fun r => (a :: r.1, r.2)
      | 93 :: rest1 => some ([a], rest1)
      | _ => none

/-- The function `json.Unmarshal` into a `[]Article` that is nil before the call:
`null` leaves it nil, an array replaces it, and nothing may follow the value. -/
def Unmarshal (data : GoString) : Option (List Article) :=
  if data = lit "null" then some []
  else
    match data with
    | 91 :: 93 :: rest => if rest = [] then some [] else none
    | 91 :: rest =>
      match parseElems rest.length rest with
      | some (l, []) => some l
      | _ => none
    | _ => none

/-! ## src/main.go -/

namespace Main

/-- Type `ArticlePageData`: what the page template is executed on. -/
structure ArticlePageData where
  Title : GoString
  Content : GoString
  Image : GoString
  Video : GoString
  Audio : GoString
  deriving DecidableEq, Repr

/-- Package variable `articlePath`. -/
def articlePath : GoString := lit "./articles"

/-- A file-system operation of the handler that writes. -/
inductive Op where
  /-- `os.MkdirAll(path, 0755)` -/
  | mkdirAll (path : GoString)
  /-- `os.Create(path)`: the file exists and is empty afterwards -/
  | create (path : GoString)
  /-- `io.Copy(dst, file)` into the file created at `path` -/
  | copy (path : GoString)
  /-- `tmpl.Execute(file, data)` into the file created at `path` -/
  | execute (path : GoString) (data : ArticlePageData)
  /-- `os.WriteFile(path, content, 0644)` -/
  | writeFile (path : GoString) (content : GoString)
  deriving DecidableEq, Repr

/-- One attempted operation and whether it returned without an error. -/
structure Event where
  op : Op
  ok : Bool
  deriving DecidableEq, Repr

/-- Type `multipart.FileHeader`, the fields the handler reads. -/
structure FileHeader where
  Filename : GoString
  Size : Int
  deriving DecidableEq, Repr

/-- Result of `r.FormFile("file")`. -/
inductive FormFile where
  /-- `err == http.ErrMissingFile`, `file == nil` -/
  | missing
  /-- any other error -/
  | failed
  /-- `err == nil`, `file != nil` -/
  | found (header : FileHeader)
  deriving DecidableEq, Repr

/-- An HTTP request as the handler observes it. -/
structure Request where
  /-- `r.Method` -/
  Method : GoString
  /-- `r.ParseMultipartForm(30 << 20)` returns no error -/
  formParses : Bool
  /-- `r.FormValue("title")` -/
  title : GoString
  /-- `r.FormValue("message")` -/
  message : GoString
  /-- `r.FormFile("file")` -/
  file : FormFile
  deriving DecidableEq, Repr

/-- Success or failure of each I/O step one request may reach. -/
structure Outcomes where
  mkdirAll : Bool
  createUpload : Bool
  copyUpload : Bool
  parseFiles : Bool
  createPage : Bool
  execute : Bool
  writeFile : Bool
  deriving DecidableEq, Repr

/-- State of the process: the counter `articleID` (an `int32`), the list `articles`
of `main`, and the file-system operations done so far, most recent first. -/
structure Server where
  articleID : Int
  articles : List Article
  fs : List Event
  deriving DecidableEq, Repr

/-- What the handler writes to the `http.ResponseWriter`: the status code and, for
a redirect, the target. -/
structure Response where
  status : Nat
  location : Option GoString
  deriving DecidableEq, Repr

/-- Outcome of one call of the handler; `currentID` is the local variable of that
name when line 118 was reached. -/
structure Result where
  response : Response
  currentID : Option Int
  server : Server
  deriving DecidableEq, Repr

/-- Reduction of an integer to the range of `int32` (two's complement). -/
def wrapInt32 (x : Int) : Int := (x + 2 ^ 31) % 2 ^ 32 - 2 ^ 31

/-- The function `atomic.AddInt32`: the new value of the counter. -/
def atomicAddInt32 (v delta : Int) : Int := wrapInt32 (v + delta)

/-- The function `loadArticles`; the argument is the result of
`os.ReadFile("articles.json")`: `none` when the file does not exist, an error
otherwise or the content. The result is `none` for an error return. -/
def loadArticles (file : Option (Except Unit GoString)) : Option (List Article) :=
  match file with
  | none => some []
  | some (.error _) => none
  | some (.ok data) => Unmarshal data

/-- The function `saveArticles`: whether it returned nil, and the operations. -/
def saveArticles (io : Outcomes) (articles : List Article) (fs : List Event) :
    Bool × List Event :=
  (io.writeFile, ⟨.writeFile (lit "articles.json") (Marshal articles), io.writeFile⟩ :: fs)

/-- The function `saveUploadedFile`. -/
def saveUploadedFile (io : Outcomes) (dirPath : GoString) (fs : List Event) :
    Bool × List Event :=
  let dst := Join dirPath (lit "upload")
  if !io.createUpload then (false, ⟨.create dst, false⟩ :: fs)
  else if !io.copyUpload then (false, ⟨.copy dst, false⟩ :: ⟨.create dst, true⟩ :: fs)
  else (true, ⟨.copy dst, true⟩ :: ⟨.create dst, true⟩ :: fs)

/-- Lines 181-195 of `saveArticlePage`: the data handed to the template. -/
def pageData (title message fileName : GoString) : ArticlePageData :=
  let data : ArticlePageData :=
    { Title := title, Content := message, Image := [], Video := [], Audio := [] }
  if fileName ≠ [] then
    let ext := Ext fileName
    if ext = lit ".jpg" ∨ ext = lit ".jpeg" ∨ ext = lit ".png" ∨ ext = lit ".gif" then
      { data with Image := lit "upload" }
    else if ext = lit ".mp4" then { data with Video := lit "upload" }
    else if ext = lit ".mp3" then { data with Audio := lit "upload" }
    else data
  else data

/-- The function `saveArticlePage`. -/
def saveArticlePage (io : Outcomes) (title message dirPath fileName : GoString)
    (fs : List Event) : Bool × List Event :=
  let data := pageData title message fileName
  if !io.parseFiles then (false, fs)
  else
    let filePath := Join dirPath (lit "index.html")
    if !io.createPage then (false, ⟨.create filePath, false⟩ :: fs)
    else if !io.execute then
      (false, ⟨.execute filePath data, false⟩ :: ⟨.create filePath, true⟩ :: fs)
    else (true, ⟨.execute filePath data, true⟩ :: ⟨.create filePath, true⟩ :: fs)

/-- Lines 149-161 of `handleFormSubmission`: the page, the list, the redirect. -/
def finishSubmission (io : Outcomes) (r : Request) (currentID : Int)
    (dirPath fileName : GoString) (s : Server) : Result :=
  let page := saveArticlePage io r.title r.message dirPath fileName s.fs
  if !page.1 then ⟨⟨500, none⟩, some currentID, { s with fs := page.2 }⟩
  else
    let articles := { ID := currentID, Title := r.title } :: s.articles
    let saved := saveArticles io articles page.2
    let s2 : Server := { s with articles := articles, fs := saved.2 }
    if !saved.1 then ⟨⟨500, none⟩, some currentID, s2⟩
    else ⟨⟨303, some (lit "/articles/" ++ Itoa currentID)⟩, some currentID, s2⟩

/-- Lines 118-161 of `handleFormSubmission`: what happens once the request has
passed the checks. The ID is allocated, the directory made, the upload and the
page written, the list extended and saved. -/
def storeSubmission (io : Outcomes) (r : Request) (s : Server) : Result :=
  let newID := atomicAddInt32 s.articleID 1
  let currentID := newID - 1
  let dirPath := Join articlePath (Itoa currentID)
  let s1 : Server :=
    { s with articleID := newID, fs := ⟨.mkdirAll dirPath, io.mkdirAll⟩ :: s.fs }
  if !io.mkdirAll then ⟨⟨500, none⟩, some currentID, s1⟩
  else
    match r.file with
    | .failed => ⟨⟨500, none⟩, some currentID, s1⟩
    | .missing => finishSubmission io r currentID dirPath [] s1
    | .found header =>
      if header.Size > 30 * 2 ^ 20 then ⟨⟨400, none⟩, some currentID, s1⟩
      else
        let up := saveUploadedFile io dirPath s1.fs
        if !up.1 then ⟨⟨500, none⟩, some currentID, { s1 with fs := up.2 }⟩
        else finishSubmission io r currentID dirPath header.Filename { s1 with fs := up.2 }

/-- The function `handleFormSubmission`: the checks of lines 95-116, then
`storeSubmission`. -/
def handleFormSubmission (io : Outcomes) (r : Request) (s : Server) : Result :=
  if r.Method ≠ lit "POST" then ⟨⟨405, none⟩, none, s⟩
  else if !r.formParses then ⟨⟨400, none⟩, none, s⟩
  else if r.title.length = 0 ∨ r.title.length > 75 then ⟨⟨400, none⟩, none, s⟩
  else if r.message.length = 0 ∨ r.message.length > 999999 then ⟨⟨400, none⟩, none, s⟩
  else storeSubmission io r s

/-- The request passes the method check, the parsing of the form and the length
checks of title and message (lines 95-116). -/
def Validated (r : Request) : Prop :=
  r.Method = lit "POST" ∧ r.formParses = true ∧
    ¬ (r.title.length = 0 ∨ r.title.length > 75) ∧
    ¬ (r.message.length = 0 ∨ r.message.length > 999999)

instance : DecidablePred Validated := fun r => by
  unfold Validated
  infer_instance

/-- Path of the rendered page of the article with this ID. -/
def pagePath (id : Int) : GoString := Join (Join articlePath (Itoa id)) (lit "index.html")

/-- Path of the stored upload of the article with this ID. -/
def uploadPath (id : Int) : GoString := Join (Join articlePath (Itoa id)) (lit "upload")

/-- State after `main` has loaded the articles: the counter has its initial value 1;
`none` when `loadArticles` fails (`log.Fatalf`). -/
def start (file : Option (Except Unit GoString)) : Option Server :=
  (loadArticles file).map fun l => { articleID := 1, articles := l, fs := [] }

/-- State of a process started without an `articles.json`. -/
def fresh : Server := { articleID := 1, articles := [], fs := [] }

/-- Requests handled one after another, each with the outcomes of its I/O steps:
the final state. -/
def run : List (Outcomes × Request) → Server → Server
  | [], s => s
  | (io, r) :: rest, s => run rest (handleFormSubmission io r s).server

/-- The IDs allocated while handling the requests one after another, in order of
allocation. -/
def allocated : List (Outcomes × Request) → Server → List Int
  | [], _ => []
  | (io, r) :: rest, s =>
    let res := handleFormSubmission io r s
    match res.currentID with
    | some id => id :: allocated rest res.server
    | none => allocated rest res.server

/-- All I/O steps succeed. -/
def allOk : Outcomes := ⟨true, true, true, true, true, true, true⟩

/-- The submission of the title `Hello` and the message `World` without a file. -/
def helloWorld : Request := ⟨lit "POST", true, lit "Hello", lit "World", .missing⟩

/-- Invariant of the list: each listed article has, among the operations done, a
successful creation of its page file and a successful execution of the template
into it, on data carrying the article's title. -/
def Listed (s : Server) : Prop :=
  ∀ a ∈ s.articles,
    (⟨.create (pagePath a.ID), true⟩ : Event) ∈ s.fs ∧
    ∃ data : ArticlePageData, data.Title = a.Title ∧
      (⟨.execute (pagePath a.ID) data, true⟩ : Event) ∈ s.fs

end Main

/-! ## src/1/main.go -/

namespace V1

/-- Type `Article` of `src/1/main.go`. -/
structure Article where
  ID : Int
  Title : GoString
  Message : GoString
  File : GoString
  deriving DecidableEq, Repr

/-- Package variable `staticPath`. -/
def staticPath : GoString := lit "static/articles"

/-- Package variable `articlesFile`. -/
def articlesFile : GoString := Join (lit "data") (lit "articles.json")

/-- A file-system operation of `submitArticle` that writes. -/
inductive Op where
  /-- `os.Create(path)` -/
  | create (path : GoString)
  /-- `io.Copy(f, file)` into the file created at `path` -/
  | copy (path : GoString)
  /-- `tmpl.Execute(f, article)` into the file created at `path` -/
  | execute (path : GoString) (article : Article)
  /-- `ioutil.WriteFile(path, data, 0644)`, `data` the JSON text of `articles` -/
  | writeFile (path : GoString) (articles : List Article)
  deriving DecidableEq, Repr

/-- One attempted operation and whether it returned without an error. -/
structure Event where
  op : Op
  ok : Bool
  deriving DecidableEq, Repr

/-- Result of `r.FormFile("file")`; `found` carries `handler.Filename`. -/
inductive FormFile where
  | missing
  | failed
  | found (filename : GoString)
  deriving DecidableEq, Repr

/-- An HTTP request as `submitArticle` observes it. -/
structure Request where
  /-- `r.ParseMultipartForm(maxUploadSize)` returns no error -/
  formParses : Bool
  title : GoString
  message : GoString
  file : FormFile
  deriving DecidableEq, Repr

/-- Success or failure of each I/O step one request may reach. -/
structure Outcomes where
  createUpload : Bool
  copyUpload : Bool
  parseFiles : Bool
  createPage : Bool
  execute : Bool
  writeFile : Bool
  deriving DecidableEq, Repr

/-- Package state: `articles`, `nextArticleID` (an `int`), and the file-system
operations done so far, most recent first. -/
structure Server where
  articles : List Article
  nextArticleID : Int
  fs : List Event
  deriving DecidableEq, Repr

/-- How a call of the handler ends. -/
inductive Reply where
  /-- `http.Error` with this status -/
  | error (status : Nat)
  /-- `http.Redirect` with this status to this target -/
  | redirect (status : Nat) (location : GoString)
  /-- a `panic` left the handler -/
  | panicked
  deriving DecidableEq, Repr

/-- Line 70 of `submitArticle`: the name under which the upload is stored. -/
def uploadName (nextArticleID : Int) (filename : GoString) : GoString :=
  Itoa nextArticleID ++ Ext filename

/-- Line 71 of `submitArticle`: the path the upload is created at. -/
def uploadPath (nextArticleID : Int) (filename : GoString) : GoString :=
  Join staticPath (uploadName nextArticleID filename)

/-- Line 143 of `saveArticleToFile`: the path of the rendered page. -/
def pagePath (id : Int) : GoString := Join staticPath (Itoa id ++ lit ".html")

/-- The function `saveArticles`: whether it returned (no panic), and the operations. -/
def saveArticles (io : Outcomes) (articles : List Article) (fs : List Event) :
    Bool × List Event :=
  (io.writeFile, ⟨.writeFile articlesFile articles, io.writeFile⟩ :: fs)

/-- The function `saveArticleToFile`; `articles` is the package variable it persists
through `saveArticles`. The first component is false when it panics. -/
def saveArticleToFile (io : Outcomes) (article : Article) (articles : List Article)
    (fs : List Event) : Bool × List Event :=
  if !io.parseFiles then (false, fs)
  else
    let filePath := pagePath article.ID
    if !io.createPage then (false, ⟨.create filePath, false⟩ :: fs)
    else if !io.execute then
      (false, ⟨.execute filePath article, false⟩ :: ⟨.create filePath, true⟩ :: fs)
    else
      saveArticles io articles (⟨.execute filePath article, true⟩ :: ⟨.create filePath, true⟩ :: fs)

/-- Reduction of an integer to the range of a 64-bit `int`. -/
def wrapInt64 (x : Int) : Int := (x + 2 ^ 63) % 2 ^ 64 - 2 ^ 63

/-- Lines 88-98 of `submitArticle`: the article, the page, the counter, the redirect. -/
def storeArticle (io : Outcomes) (r : Request) (fileName : GoString) (s : Server) :
    Reply × Server :=
  let article : Article :=
    { ID := s.nextArticleID, Title := r.title, Message := r.message, File := fileName }
  let articles := s.articles ++ [article]
  let saved := saveArticleToFile io article articles s.fs
  if !saved.1 then (.panicked, { s with articles := articles, fs := saved.2 })
  else
    (.redirect 302 (lit "/static/articles/" ++ Itoa article.ID ++ lit ".html"),
      { articles := articles, nextArticleID := wrapInt64 (s.nextArticleID + 1), fs := saved.2 })

/-- The function `submitArticle`. -/
def submitArticle (io : Outcomes) (r : Request) (s : Server) : Reply × Server :=
  if !r.formParses then (.error 400, s)
  else if r.title.length = 0 ∨ r.title.length > 75 ∨ r.message.length = 0 ∨
      r.message.length > 200000 then (.error 400, s)
  else
    match r.file with
    | .found filename =>
      let filePath := uploadPath s.nextArticleID filename
      if !io.createUpload then (.error 500, { s with fs := ⟨.create filePath, false⟩ :: s.fs })
      else if !io.copyUpload then
        (.error 500, { s with fs := ⟨.copy filePath, false⟩ :: ⟨.create filePath, true⟩ :: s.fs })
      else
        storeArticle io r (uploadName s.nextArticleID filename)
          { s with fs := ⟨.copy filePath, true⟩ :: ⟨.create filePath, true⟩ :: s.fs }
    | .missing => storeArticle io r [] s
    | .failed => (.error 400, s)

/-- All I/O steps succeed. -/
def allOk : Outcomes := ⟨true, true, true, true, true, true⟩

/-- The paths at which `submitArticle` creates a file with `os.Create`, in the
order of the calls, read off the operations of one request. -/
def createdPaths (fs : List Event) : List GoString :=
  fs.reverse.filterMap fun e =>
    match e.op with
    | .create path => some path
    | _ => none

end V1

end GOarticles

/-! ## Theorems -/

namespace GOarticles

open Main

/-- C3: a POST request whose form parses and whose title is empty or longer than 75
bytes, or whose message is empty or longer than 999999 bytes, is answered with
status 400, allocates no ID and leaves the whole state as it was: the counter, the
article list and the file system (no operation is attempted). -/
theorem bad_lengths_rejected_without_effect (io : Outcomes) (r : Request) (s : Server)
    (hmethod : r.Method = lit "POST") (hparse : r.formParses = true)
    (hbad : (r.title.length = 0 ∨ r.title.length > 75) ∨
      (r.message.length = 0 ∨ r.message.length > 999999)) :
    (handleFormSubmission io r s).response.status = 400 ∧
      (handleFormSubmission io r s).currentID = none ∧
      (handleFormSubmission io r s).server = s ∧
      (handleFormSubmission io r s).server.articleID = s.articleID ∧
      (handleFormSubmission io r s).server.fs = s.fs ∧
      (handleFormSubmission io r s).server.articles = s.articles := by
  unfold handleFormSubmission
  rw [if_neg (not_not.mpr hmethod), if_neg (by simp [hparse])]
  by_cases ht : r.title.length = 0 ∨ r.title.length > 75
  · rw [if_pos ht]
    exact ⟨rfl, rfl, rfl, rfl, rfl, rfl⟩
  · rcases hbad with h | h
    · exact absurd h ht
    · rw [if_neg ht, if_pos h]
      exact ⟨rfl, rfl, rfl, rfl, rfl, rfl⟩

/-- Witness of C3: an empty title on a fresh server. -/
theorem bad_lengths_rejected_without_effect_witness :
    (handleFormSubmission allOk ⟨lit "POST", true, [], lit "text", .missing⟩ fresh).response.status
        = 400 ∧
      (handleFormSubmission allOk ⟨lit "POST", true, [], lit "text", .missing⟩ fresh).server
        = fresh :=
  have h := bad_lengths_rejected_without_effect allOk
    ⟨lit "POST", true, [], lit "text", .missing⟩ fresh rfl rfl (Or.inl (Or.inl rfl))
  ⟨h.1, h.2.2.1⟩

/-! ### The handler after the checks -/

theorem handle_of_validated (io : Outcomes) (r : Request) (s : Server) (h : Validated r) :
    handleFormSubmission io r s = storeSubmission io r s := by
  obtain ⟨hm, hp, ht, hmsg⟩ := h
  unfold handleFormSubmission
  rw [if_neg (not_not.mpr hm), if_neg (by simp [hp]), if_neg ht, if_neg hmsg]

theorem handle_of_not_validated (io : Outcomes) (r : Request) (s : Server)
    (h : ¬ Validated r) :
    (handleFormSubmission io r s).server = s ∧ (handleFormSubmission io r s).currentID = none ∧
      (handleFormSubmission io r s).response.location = none := by
  unfold handleFormSubmission
  by_cases hm : r.Method = lit "POST"
  · rw [if_neg (not_not.mpr hm)]
    by_cases hp : r.formParses = true
    · rw [if_neg (by simp [hp])]
      by_cases ht : r.title.length = 0 ∨ r.title.length > 75
      · rw [if_pos ht]; exact ⟨rfl, rfl, rfl⟩
      · rw [if_neg ht]
        by_cases hmsg : r.message.length = 0 ∨ r.message.length > 999999
        · rw [if_pos hmsg]; exact ⟨rfl, rfl, rfl⟩
        · exact absurd ⟨hm, hp, ht, hmsg⟩ h
    · rw [if_pos (by simp [hp])]; exact ⟨rfl, rfl, rfl⟩
  · rw [if_pos hm]; exact ⟨rfl, rfl, rfl⟩

/-- Every outcome of `finishSubmission`, by the results of its I/O steps. -/
theorem finishSubmission_cases (io : Outcomes) (r : Request) (id : Int)
    (dirPath fileName : GoString) (s : Server) :
    (finishSubmission io r id dirPath fileName s).currentID = some id ∧
    (finishSubmission io r id dirPath fileName s).server.articleID = s.articleID ∧
    (((saveArticlePage io r.title r.message dirPath fileName s.fs).1 = false ∧
        (finishSubmission io r id dirPath fileName s).response = ⟨500, none⟩ ∧
        (finishSubmission io r id dirPath fileName s).server.articles = s.articles ∧
        (finishSubmission io r id dirPath fileName s).server.fs =
          (saveArticlePage io r.title r.message dirPath fileName s.fs).2) ∨
      ((saveArticlePage io r.title r.message dirPath fileName s.fs).1 = true ∧
        (finishSubmission io r id dirPath fileName s).server.articles =
          ⟨id, r.title⟩ :: s.articles ∧
        (finishSubmission io r id dirPath fileName s).server.fs =
          ⟨.writeFile (lit "articles.json") (Marshal (⟨id, r.title⟩ :: s.articles)),
            io.writeFile⟩ :: (saveArticlePage io r.title r.message dirPath fileName s.fs).2 ∧
        ((io.writeFile = false ∧
            (finishSubmission io r id dirPath fileName s).response = ⟨500, none⟩) ∨
          (io.writeFile = true ∧ (finishSubmission io r id dirPath fileName s).response =
            ⟨303, some (lit "/articles/" ++ Itoa id)⟩)))) := by
  unfold finishSubmission
  cases hpage : (saveArticlePage io r.title r.message dirPath fileName s.fs).1
  · simp [hpage]
  · cases hw : io.writeFile <;> simp [saveArticles, hw, hpage]

theorem saveArticlePage_ok (io : Outcomes) (title message dirPath fileName : GoString)
    (fs : List Event) :
    ((saveArticlePage io title message dirPath fileName fs).1 = true ↔
      (io.parseFiles = true ∧ io.createPage = true ∧ io.execute = true)) ∧
    ((saveArticlePage io title message dirPath fileName fs).1 = true →
      (saveArticlePage io title message dirPath fileName fs).2 =
        ⟨.execute (Join dirPath (lit "index.html")) (pageData title message fileName), true⟩ ::
          ⟨.create (Join dirPath (lit "index.html")), true⟩ :: fs) := by
  unfold saveArticlePage
  cases io.parseFiles <;> cases io.createPage <;> cases io.execute <;> simp

theorem saveUploadedFile_ok (io : Outcomes) (dirPath : GoString) (fs : List Event) :
    ((saveUploadedFile io dirPath fs).1 = true ↔
      (io.createUpload = true ∧ io.copyUpload = true)) ∧
    ((saveUploadedFile io dirPath fs).1 = true →
      (saveUploadedFile io dirPath fs).2 =
        ⟨.copy (Join dirPath (lit "upload")), true⟩ ::
          ⟨.create (Join dirPath (lit "upload")), true⟩ :: fs) := by
  unfold saveUploadedFile
  cases io.createUpload <;> cases io.copyUpload <;> simp

/-- Every outcome of `storeSubmission`: the ID is allocated in all of them; either
the list is unchanged and the answer is an error without a redirect, or the new
article heads the list, its page was written, the upload too when a file was
attached, and the answer depends on the saving of the list alone. -/
theorem storeSubmission_cases (io : Outcomes) (r : Request) (s : Server) :
    (storeSubmission io r s).currentID = some (atomicAddInt32 s.articleID 1 - 1) ∧
    (storeSubmission io r s).server.articleID = atomicAddInt32 s.articleID 1 ∧
    (((storeSubmission io r s).server.articles = s.articles ∧
        (storeSubmission io r s).response.location = none ∧
        ((storeSubmission io r s).response.status = 400 ∨
          (storeSubmission io r s).response.status = 500)) ∨
      ((storeSubmission io r s).server.articles =
          ⟨atomicAddInt32 s.articleID 1 - 1, r.title⟩ :: s.articles ∧
        io.mkdirAll = true ∧
        (io.parseFiles = true ∧ io.createPage = true ∧ io.execute = true) ∧
        (∀ header, r.file = .found header →
          header.Size ≤ 30 * 2 ^ 20 ∧ io.createUpload = true ∧ io.copyUpload = true) ∧
        (∃ fileName,
          ⟨.execute (pagePath (atomicAddInt32 s.articleID 1 - 1))
            (pageData r.title r.message fileName), true⟩ ∈ (storeSubmission io r s).server.fs ∧
          ⟨.create (pagePath (atomicAddInt32 s.articleID 1 - 1)), true⟩ ∈
            (storeSubmission io r s).server.fs) ∧
        ((io.writeFile = false ∧ (storeSubmission io r s).response = ⟨500, none⟩) ∨
          (io.writeFile = true ∧ (storeSubmission io r s).response =
            ⟨303, some (lit "/articles/" ++ Itoa (atomicAddInt32 s.articleID 1 - 1))⟩)))) := by
  unfold storeSubmission
  cases hmk : io.mkdirAll
  · simp
  · cases hfile : r.file with
    | failed => simp
    | missing =>
      simp only [Bool.not_true, Bool.false_eq_true, if_false]
      have hf := finishSubmission_cases io r (atomicAddInt32 s.articleID 1 - 1)
        (Join articlePath (Itoa (atomicAddInt32 s.articleID 1 - 1))) []
        { s with articleID := atomicAddInt32 s.articleID 1,
                 fs := ⟨.mkdirAll (Join articlePath (Itoa (atomicAddInt32 s.articleID 1 - 1))),
                   true⟩ :: s.fs }
      have hp := saveArticlePage_ok io r.title r.message
        (Join articlePath (Itoa (atomicAddInt32 s.articleID 1 - 1))) []
        (⟨.mkdirAll (Join articlePath (Itoa (atomicAddInt32 s.articleID 1 - 1))), true⟩ :: s.fs)
      refine ⟨hf.1, hf.2.1, ?_⟩
      rcases hf.2.2 with ⟨h1, h2, h3, _⟩ | ⟨h1, h2, h3, h4⟩
      · left
        exact ⟨h3, by rw [h2], Or.inr (by rw [h2])⟩
      · right
        refine ⟨h2, trivial, hp.1.mp h1, ?_, ⟨[], ?_, ?_⟩, h4⟩
        · intro header hh
          cases hh
        · rw [h3, hp.2 h1]
          simp [pagePath]
        · rw [h3, hp.2 h1]
          simp [pagePath]
    | found header =>
      simp only [Bool.not_true, Bool.false_eq_true, if_false]
      by_cases hsz : header.Size > 30 * 2 ^ 20
      · rw [if_pos hsz]
        simp
      · rw [if_neg hsz]
        have hu := saveUploadedFile_ok io
          (Join articlePath (Itoa (atomicAddInt32 s.articleID 1 - 1)))
          (⟨.mkdirAll (Join articlePath (Itoa (atomicAddInt32 s.articleID 1 - 1))), true⟩ :: s.fs)
        cases hup : (saveUploadedFile io
          (Join articlePath (Itoa (atomicAddInt32 s.articleID 1 - 1)))
          (⟨.mkdirAll (Join articlePath (Itoa (atomicAddInt32 s.articleID 1 - 1))), true⟩ ::
            s.fs)).1
        · simp [hup]
        · simp only [hup, Bool.not_true, Bool.false_eq_true, if_false]
          have hf := finishSubmission_cases io r (atomicAddInt32 s.articleID 1 - 1)
            (Join articlePath (Itoa (atomicAddInt32 s.articleID 1 - 1))) header.Filename
            { s with articleID := atomicAddInt32 s.articleID 1,
                     fs := (saveUploadedFile io
                      (Join articlePath (Itoa (atomicAddInt32 s.articleID 1 - 1)))
                      (⟨.mkdirAll (Join articlePath (Itoa (atomicAddInt32 s.articleID 1 - 1))),
                        true⟩ :: s.fs)).2 }
          have hp := saveArticlePage_ok io r.title r.message
            (Join articlePath (Itoa (atomicAddInt32 s.articleID 1 - 1))) header.Filename
            (saveUploadedFile io
                      (Join articlePath (Itoa (atomicAddInt32 s.articleID 1 - 1)))
                      (⟨.mkdirAll (Join articlePath (Itoa (atomicAddInt32 s.articleID 1 - 1))),
                        true⟩ :: s.fs)).2
          refine ⟨hf.1, hf.2.1, ?_⟩
          rcases hf.2.2 with ⟨h1, h2, h3, _⟩ | ⟨h1, h2, h3, h4⟩
          · left
            exact ⟨h3, by rw [h2], Or.inr (by rw [h2])⟩
          · right
            refine ⟨h2, trivial, hp.1.mp h1, ?_, ⟨header.Filename, ?_, ?_⟩, h4⟩
            · intro header2 hh
              cases hh
              exact ⟨not_lt.mp hsz, hu.1.mp hup⟩
            · rw [h3, hp.2 h1]
              simp [pagePath]
            · rw [h3, hp.2 h1]
              simp [pagePath]

/-- C7: when the handler ends with a redirect, the list afterwards is the new article
(the allocated ID, the submitted title) followed by the previous list unchanged,
and the answer is a 303 to `/articles/<currentID>`. -/
theorem redirect_prepends_article (io : Outcomes) (r : Request) (s : Server)
    (h : (handleFormSubmission io r s).response.location ≠ none) :
    ∃ id, (handleFormSubmission io r s).currentID = some id ∧
      (handleFormSubmission io r s).server.articles = ⟨id, r.title⟩ :: s.articles ∧
      (handleFormSubmission io r s).response = ⟨303, some (lit "/articles/" ++ Itoa id)⟩ := by
  by_cases hv : Validated r
  · rw [handle_of_validated io r s hv] at h ⊢
    obtain ⟨hid, _, hcases⟩ := storeSubmission_cases io r s
    rcases hcases with ⟨_, hloc, _⟩ | ⟨hart, _, _, _, _, hresp⟩
    · exact absurd hloc h
    · rcases hresp with ⟨_, h500⟩ | ⟨_, h303⟩
      · rw [h500] at h
        exact absurd rfl h
      · exact ⟨_, hid, hart, h303⟩
  · exact absurd (handle_of_not_validated io r s hv).2.2 h

/-- Witness of C7: the first submission on a fresh server, all I/O succeeding. -/
theorem redirect_prepends_article_witness :
    ∃ id, (handleFormSubmission allOk
        ⟨lit "POST", true, lit "Hello", lit "World", .missing⟩ fresh).currentID = some id ∧
      (handleFormSubmission allOk
        ⟨lit "POST", true, lit "Hello", lit "World", .missing⟩ fresh).server.articles =
        ⟨id, lit "Hello"⟩ :: fresh.articles ∧
      (handleFormSubmission allOk
        ⟨lit "POST", true, lit "Hello", lit "World", .missing⟩ fresh).response =
        ⟨303, some (lit "/articles/" ++ Itoa id)⟩ :=
  redirect_prepends_article allOk ⟨lit "POST", true, lit "Hello", lit "World", .missing⟩ fresh
    (by decide)

/-- C4, the failing input: every step succeeds except the writing of `articles.json`.
The answer is a 500, and the list, empty before, now holds the article of the
failed submission. -/
theorem failed_save_keeps_article_listed :
    (handleFormSubmission ⟨true, true, true, true, true, true, false⟩
        ⟨lit "POST", true, lit "Hello", lit "World", .missing⟩ fresh).response = ⟨500, none⟩ ∧
      fresh.articles = [] ∧
      (handleFormSubmission ⟨true, true, true, true, true, true, false⟩
        ⟨lit "POST", true, lit "Hello", lit "World", .missing⟩ fresh).server.articles =
        [⟨1, lit "Hello"⟩] := by
  decide

/-- C9, as stated, fails when the directory cannot be made: a submission that passes
validation and carries a file of 30 MiB + 1 bytes is answered with 500, not 400. -/
theorem oversized_file_mkdir_failure :
    Validated ⟨lit "POST", true, lit "Hello", lit "World", .found ⟨lit "a.png", 30 * 2 ^ 20 + 1⟩⟩ ∧
      (handleFormSubmission ⟨false, true, true, true, true, true, true⟩
        ⟨lit "POST", true, lit "Hello", lit "World", .found ⟨lit "a.png", 30 * 2 ^ 20 + 1⟩⟩
        fresh).response.status = 500 := by
  decide

/-- C9, amended: for a submission that passes validation and carries a file part, if
the declared size exceeds 30 * 2^20 bytes then the only file-system operation of the
request is the `MkdirAll` of the article directory (so `saveUploadedFile` and
`saveArticlePage` are not called: no upload, no page), the list is unchanged, and
the answer is 400 when that `MkdirAll` succeeded (500 otherwise); if the declared
size is exactly 30 * 2^20 bytes and `MkdirAll` succeeded, `saveUploadedFile` is
called (the creation of the upload is attempted). -/
theorem oversized_file_rejected (io : Outcomes) (r : Request) (s : Server)
    (header : FileHeader) (hv : Validated r) (hfile : r.file = .found header) :
    (header.Size > 30 * 2 ^ 20 →
      (handleFormSubmission io r s).server.fs =
          ⟨.mkdirAll (Join articlePath (Itoa (atomicAddInt32 s.articleID 1 - 1))),
            io.mkdirAll⟩ :: s.fs ∧
        (handleFormSubmission io r s).server.articles = s.articles ∧
        (io.mkdirAll = true → (handleFormSubmission io r s).response = ⟨400, none⟩) ∧
        (io.mkdirAll = false → (handleFormSubmission io r s).response = ⟨500, none⟩)) ∧
    (header.Size = 30 * 2 ^ 20 → io.mkdirAll = true →
      ⟨.create (uploadPath (atomicAddInt32 s.articleID 1 - 1)), io.createUpload⟩ ∈
        (handleFormSubmission io r s).server.fs) := by
  rw [handle_of_validated io r s hv]
  unfold storeSubmission
  constructor
  · intro hsz
    cases hmk : io.mkdirAll
    · simp
    · simp only [hfile, Bool.not_true, Bool.false_eq_true, if_false]
      rw [if_pos hsz]
      simp
  · intro hsz hmk
    have hns : ¬ header.Size > 30 * 2 ^ 20 := by rw [hsz]; decide
    simp only [hmk, hfile, hns, Bool.not_true, Bool.false_eq_true, if_false]
    have hup : ⟨.create (uploadPath (atomicAddInt32 s.articleID 1 - 1)), io.createUpload⟩ ∈
        (saveUploadedFile io (Join articlePath (Itoa (atomicAddInt32 s.articleID 1 - 1)))
          (⟨.mkdirAll (Join articlePath (Itoa (atomicAddInt32 s.articleID 1 - 1))), true⟩ ::
            s.fs)).2 := by
      unfold saveUploadedFile uploadPath
      cases io.createUpload <;> cases io.copyUpload <;> simp
    split
    · exact hup
    · unfold finishSubmission saveArticlePage saveArticles
      cases io.parseFiles <;> cases io.createPage <;> cases io.execute <;>
        cases io.writeFile <;> simp [hup]

/-- Witness of C9 amended: a file of 30 MiB + 1 bytes on a fresh server. -/
theorem oversized_file_rejected_witness :
    (handleFormSubmission allOk
        ⟨lit "POST", true, lit "Hello", lit "World", .found ⟨lit "a.png", 30 * 2 ^ 20 + 1⟩⟩
        fresh).response = ⟨400, none⟩ ∧
      (handleFormSubmission allOk
        ⟨lit "POST", true, lit "Hello", lit "World", .found ⟨lit "a.png", 30 * 2 ^ 20 + 1⟩⟩
        fresh).server.articles = [] :=
  have h := (oversized_file_rejected allOk
    ⟨lit "POST", true, lit "Hello", lit "World", .found ⟨lit "a.png", 30 * 2 ^ 20 + 1⟩⟩ fresh
    ⟨lit "a.png", 30 * 2 ^ 20 + 1⟩ (by decide) rfl).1 (by decide)
  ⟨h.2.2.1 rfl, h.2.1⟩


/-- C6: the media kind `saveArticlePage` puts in the page data is decided by a
case-sensitive comparison of `filepath.Ext(fileName)`: `Image` is `upload` exactly
for `.jpg`, `.jpeg`, `.png` and `.gif`, `Video` exactly for `.mp4`, `Audio` exactly
for `.mp3`; with any other extension (`photo.PNG` among them) or an empty file name
the three fields are empty; each field is empty or `upload`, and at most one of the
three is set. -/
theorem media_kind_by_extension (title message fileName : GoString) :
    ((pageData title message fileName).Image = lit "upload" ↔
      (Ext fileName = lit ".jpg" ∨ Ext fileName = lit ".jpeg" ∨ Ext fileName = lit ".png" ∨
        Ext fileName = lit ".gif")) ∧
    ((pageData title message fileName).Video = lit "upload" ↔ Ext fileName = lit ".mp4") ∧
    ((pageData title message fileName).Audio = lit "upload" ↔ Ext fileName = lit ".mp3") ∧
    ((pageData title message fileName).Image = [] ∨
      (pageData title message fileName).Image = lit "upload") ∧
    ((pageData title message fileName).Video = [] ∨
      (pageData title message fileName).Video = lit "upload") ∧
    ((pageData title message fileName).Audio = [] ∨
      (pageData title message fileName).Audio = lit "upload") ∧
    (((pageData title message fileName).Image = [] ∧
        (pageData title message fileName).Video = []) ∨
      ((pageData title message fileName).Image = [] ∧
        (pageData title message fileName).Audio = []) ∨
      ((pageData title message fileName).Video = [] ∧
        (pageData title message fileName).Audio = [])) ∧
    (fileName = [] → pageData title message fileName = ⟨title, message, [], [], []⟩) ∧
    pageData title message (lit "photo.PNG") = ⟨title, message, [], [], []⟩ ∧
    pageData title message (lit "photo.png") = ⟨title, message, lit "upload", [], []⟩ := by
  have hne : lit "upload" ≠ [] := by decide
  have hemp : Ext [] = [] := rfl
  have hPNG : Ext (lit "photo.PNG") = lit ".PNG" := by decide
  have hpng : Ext (lit "photo.png") = lit ".png" := by decide
  refine ⟨?_, ?_, ?_, ?_, ?_, ?_, ?_, ?_, ?_, ?_⟩
  all_goals unfold pageData
  case refine_9 =>
    rw [if_pos (by decide), hPNG, if_neg (by decide), if_neg (by decide), if_neg (by decide)]
  case refine_10 =>
    rw [if_pos (by decide), hpng, if_pos (by decide)]
  all_goals
    by_cases hfn : fileName = []
    · subst hfn
      simp +decide [hemp]
    · simp only [ne_eq, hfn, not_false_eq_true, if_true]
      split_ifs with h1 h2 h3
      · rcases h1 with h | h | h | h <;> simp +decide [h]
      · simp +decide [h2]
      · simp +decide [h3, h1, h2]
      · simp +decide [h1, h2, h3]


/-! ### Paths -/

theorem copyElem_elem (elem rest out : GoString) (helem : ∀ x ∈ elem, x ≠ 47)
    (hrest : rest = [] ∨ ∃ t, rest = 47 :: t) :
    copyElem (elem ++ rest) out = (elem.reverse ++ out, rest) := by
  induction elem generalizing out with
  | nil =>
    rcases hrest with h | ⟨t, h⟩ <;> subst h <;> simp [copyElem]
  | cons c elem ih =>
    have hc : c ≠ 47 := helem c (List.mem_cons_self _ _)
    have := ih (c :: out) (fun x hx => helem x (List.mem_cons_of_mem _ hx))
    simp [copyElem, hc, this]

theorem cleanLoop_sep (fuel : Nat) (rooted : Bool) (rest out : GoString) (dotdot : Nat) :
    cleanLoop (fuel + 1) rooted (47 :: rest) out dotdot = cleanLoop fuel rooted rest out dotdot := by
  rw [cleanLoop]

theorem cleanLoop_elem (fuel : Nat) (c : Nat) (elem rest out : GoString) (dotdot : Nat)
    (hc : c ≠ 47) (hc2 : c ≠ 46) (helem : ∀ x ∈ elem, x ≠ 47)
    (hrest : rest = [] ∨ ∃ t, rest = 47 :: t) :
    cleanLoop (fuel + 1) false (c :: elem ++ rest) out dotdot =
      cleanLoop fuel false rest
        ((c :: elem).reverse ++ (if out.length ≠ 0 then 47 :: out else out)) dotdot := by
  have hcopy := copyElem_elem (c :: elem) rest (if out.length ≠ 0 then 47 :: out else out)
    (by
      intro x hx
      rcases List.mem_cons.mp hx with h | h
      · rw [h]; exact hc
      · exact helem x h) hrest
  rw [List.cons_append, cleanLoop]
  · simp only [hc2, false_and, if_false]
    simp only [Bool.false_eq_true, false_and, Bool.not_false, true_and, false_or]
    rw [← List.cons_append, hcopy]
  · intro h
    exact hc h
  · intro h _
    exact hc2 h
  · intro rest' h _
    exact hc2 h

theorem digitsAux_chars (fuel n : Nat) (acc : GoString)
    (hacc : ∀ x ∈ acc, 48 ≤ x ∧ x ≤ 57) : ∀ x ∈ digitsAux fuel n acc, 48 ≤ x ∧ x ≤ 57 := by
  induction fuel generalizing n acc with
  | zero => simpa [digitsAux] using hacc
  | succ fuel ih =>
    unfold digitsAux
    split_ifs with h
    · intro x hx
      rcases List.mem_cons.mp hx with hx | hx
      · omega
      · exact hacc x hx
    · apply ih
      intro x hx
      rcases List.mem_cons.mp hx with hx | hx
      · omega
      · exact hacc x hx

theorem digitsAux_ne_nil (fuel n : Nat) (acc : GoString) (hacc : acc ≠ []) :
    digitsAux fuel n acc ≠ [] := by
  induction fuel generalizing n acc with
  | zero => simpa [digitsAux] using hacc
  | succ fuel ih =>
    unfold digitsAux
    split_ifs with h
    · simp
    · exact ih _ _ (by simp)

theorem formatNat_ne_nil (n : Nat) : formatNat n ≠ [] := by
  unfold formatNat digitsAux
  split_ifs with h
  · simp
  · exact digitsAux_ne_nil _ _ _ (by simp)

/-- The text of a number is not empty and consists of a minus sign and digits: it
holds no separator and no dot. -/
theorem Itoa_shape (i : Int) :
    ∃ c elem, Itoa i = c :: elem ∧ c ≠ 47 ∧ c ≠ 46 ∧ (∀ x ∈ elem, x ≠ 47) := by
  have hall : ∀ x ∈ Itoa i, x = 45 ∨ (48 ≤ x ∧ x ≤ 57) := by
    intro x hx
    unfold Itoa at hx
    split_ifs at hx
    · rcases List.mem_cons.mp hx with hx | hx
      · exact Or.inl hx
      · exact Or.inr (digitsAux_chars _ _ [] (by simp) x hx)
    · exact Or.inr (digitsAux_chars _ _ [] (by simp) x hx)
  have hne : Itoa i ≠ [] := by
    unfold Itoa
    split_ifs
    · simp
    · exact formatNat_ne_nil _
  cases hI : Itoa i with
  | nil => exact absurd hI hne
  | cons c elem =>
    rw [hI] at hall
    refine ⟨c, elem, rfl, ?_, ?_, ?_⟩
    · have := hall c (List.mem_cons_self _ _)
      omega
    · have := hall c (List.mem_cons_self _ _)
      omega
    · intro x hx
      have := hall x (List.mem_cons_of_mem _ hx)
      omega

theorem extScan_no_sep (rev acc : GoString) (hacc : ∀ x ∈ acc, x ≠ 47) :
    ∀ x ∈ extScan rev acc, x ≠ 47 := by
  induction rev generalizing acc with
  | nil => simp [extScan]
  | cons c rev ih =>
    unfold extScan
    split_ifs with h1 h2
    · simp
    · intro x hx
      rcases List.mem_cons.mp hx with hx | hx
      · omega
      · exact hacc x hx
    · apply ih
      intro x hx
      rcases List.mem_cons.mp hx with hx | hx
      · omega
      · exact hacc x hx

/-- An extension holds no separator. -/
theorem Ext_no_sep (path : GoString) : ∀ x ∈ Ext path, x ≠ 47 :=
  extScan_no_sep _ _ (by simp)

/-- The directory of an article: `filepath.Join("./articles", strconv.Itoa(id))` is
`articles/<id>`. -/
theorem Join_articlePath (id : Int) :
    Join Main.articlePath (Itoa id) = lit "articles/" ++ Itoa id := by
  obtain ⟨c, elem, hI, hc, hc2, helem⟩ := Itoa_shape id
  rw [hI]
  have hlen : (Main.articlePath ++ 47 :: c :: elem).length = (elem.length + 7) + 5 := by
    simp [Main.articlePath, lit]
  have hpath : Main.articlePath ++ 47 :: c :: elem =
      46 :: 47 :: (97 :: lit "rticles" ++ (47 :: (c :: elem ++ []))) := by
    simp [Main.articlePath, lit]
  unfold Join
  rw [if_neg (by simp [Main.articlePath, lit]), if_neg (by simp [Main.articlePath, lit]),
    if_neg (by simp)]
  unfold Clean
  rw [if_neg (by simp), hlen, hpath]
  simp only [List.head?_cons, Option.some.injEq, show ¬ (46 = 47) by decide, if_false]
  rw [cleanLoop, cleanLoop_sep,
    cleanLoop_elem _ 97 (lit "rticles") _ _ _ (by decide) (by decide) (by decide)
      (Or.inr ⟨_, rfl⟩),
    cleanLoop_sep, cleanLoop_elem _ c elem [] _ _ hc hc2 helem (Or.inl rfl)]
  simp [cleanLoop, lit]

theorem cleanLoop_nil (fuel : Nat) (rooted : Bool) (out : GoString) (dotdot : Nat) :
    cleanLoop fuel rooted [] out dotdot = out := by
  cases fuel <;> simp [cleanLoop]

/-- A relative path of three elements, none empty, none starting with a dot, is
clean already. -/
theorem Clean_three (c1 c2 c3 : Nat) (e1 e2 e3 : GoString)
    (h1 : c1 ≠ 47 ∧ c1 ≠ 46 ∧ ∀ x ∈ e1, x ≠ 47) (h2 : c2 ≠ 47 ∧ c2 ≠ 46 ∧ ∀ x ∈ e2, x ≠ 47)
    (h3 : c3 ≠ 47 ∧ c3 ≠ 46 ∧ ∀ x ∈ e3, x ≠ 47) :
    Clean (c1 :: e1 ++ 47 :: (c2 :: e2 ++ 47 :: (c3 :: e3))) =
      c1 :: e1 ++ 47 :: (c2 :: e2 ++ 47 :: (c3 :: e3)) := by
  have hlen : (c1 :: e1 ++ 47 :: (c2 :: e2 ++ 47 :: (c3 :: e3))).length =
      (e1.length + e2.length + e3.length) + 5 := by
    simp
    omega
  have hpath : c1 :: e1 ++ 47 :: (c2 :: e2 ++ 47 :: (c3 :: e3)) =
      c1 :: e1 ++ (47 :: (c2 :: e2 ++ (47 :: (c3 :: e3 ++ [])))) := by
    simp
  unfold Clean
  rw [if_neg (by simp), hlen]
  have hroot : ¬ ((c1 :: e1 ++ 47 :: (c2 :: e2 ++ 47 :: (c3 :: e3))).head? = some 47) := by
    simp [h1.1]
  simp only [hroot, decide_False, Bool.false_eq_true, if_false]
  rw [hpath, cleanLoop_elem _ c1 e1 _ _ _ h1.1 h1.2.1 h1.2.2 (Or.inr ⟨_, rfl⟩), cleanLoop_sep,
    cleanLoop_elem _ c2 e2 _ _ _ h2.1 h2.2.1 h2.2.2 (Or.inr ⟨_, rfl⟩), cleanLoop_sep,
    cleanLoop_elem _ c3 e3 [] _ _ h3.1 h3.2.1 h3.2.2 (Or.inl rfl), cleanLoop_nil]
  simp

namespace Main

/-- The rendered page of an article is at `articles/<id>/index.html`. -/
theorem pagePath_eq (id : Int) :
    pagePath id = lit "articles/" ++ Itoa id ++ lit "/index.html" := by
  obtain ⟨c, elem, hI, hc, hc2, helem⟩ := Itoa_shape id
  unfold pagePath
  rw [Join_articlePath, hI]
  unfold Join
  rw [if_neg (by simp [lit]), if_neg (by simp [lit]), if_neg (by simp [lit])]
  have := Clean_three 97 c 105 (lit "rticles") elem (lit "ndex.html")
    (by decide) ⟨hc, hc2, helem⟩ (by decide)
  simpa [lit] using this

/-- The stored upload of an article is at `articles/<id>/upload`. -/
theorem uploadPath_eq (id : Int) :
    uploadPath id = lit "articles/" ++ Itoa id ++ lit "/upload" := by
  obtain ⟨c, elem, hI, hc, hc2, helem⟩ := Itoa_shape id
  unfold uploadPath
  rw [Join_articlePath, hI]
  unfold Join
  rw [if_neg (by simp [lit]), if_neg (by simp [lit]), if_neg (by simp [lit])]
  have := Clean_three 97 c 117 (lit "rticles") elem (lit "pload")
    (by decide) ⟨hc, hc2, helem⟩ (by decide)
  simpa [lit] using this

end Main

namespace V1

/-- The upload of `src/1/main.go` is created at `static/articles/<id><ext>`. -/
theorem uploadPath_v1_eq (id : Int) (filename : GoString) :
    uploadPath id filename = lit "static/articles/" ++ Itoa id ++ Ext filename := by
  obtain ⟨c, elem, hI, hc, hc2, helem⟩ := Itoa_shape id
  unfold uploadPath uploadName Join
  rw [hI, if_neg (by simp [staticPath, lit]), if_neg (by simp [staticPath, lit]),
    if_neg (by simp)]
  have := Clean_three 115 97 c (lit "tatic") (lit "rticles") (elem ++ Ext filename)
    (by decide) (by decide) ⟨hc, hc2, fun x hx => by
      rcases List.mem_append.mp hx with h | h
      · exact helem x h
      · exact Ext_no_sep filename x h⟩
  simpa [lit, staticPath] using this

/-- The page of `src/1/main.go` is created at `static/articles/<id>.html`. -/
theorem pagePath_v1_eq (id : Int) :
    pagePath id = lit "static/articles/" ++ Itoa id ++ lit ".html" := by
  obtain ⟨c, elem, hI, hc, hc2, helem⟩ := Itoa_shape id
  unfold pagePath Join
  rw [hI, if_neg (by simp [staticPath, lit]), if_neg (by simp [staticPath, lit]),
    if_neg (by simp)]
  have := Clean_three 115 97 c (lit "tatic") (lit "rticles") (elem ++ lit ".html")
    (by decide) (by decide) ⟨hc, hc2, fun x hx => by
      rcases List.mem_append.mp hx with h | h
      · exact helem x h
      · have hx2 : x = 46 ∨ x = 104 ∨ x = 116 ∨ x = 109 ∨ x = 108 := by
          simpa [lit] using h
        omega⟩
  simpa [lit, staticPath] using this

end V1


/-! ### The operations only grow, and listed articles have pages -/

theorem saveArticlePage_mono (io : Outcomes) (title message dirPath fileName : GoString)
    (fs : List Event) (e : Event) (he : e ∈ fs) :
    e ∈ (saveArticlePage io title message dirPath fileName fs).2 := by
  unfold saveArticlePage
  cases io.parseFiles <;> cases io.createPage <;> cases io.execute <;> simp [he]

theorem saveUploadedFile_mono (io : Outcomes) (dirPath : GoString) (fs : List Event)
    (e : Event) (he : e ∈ fs) : e ∈ (saveUploadedFile io dirPath fs).2 := by
  unfold saveUploadedFile
  cases io.createUpload <;> cases io.copyUpload <;> simp [he]

theorem finishSubmission_mono (io : Outcomes) (r : Request) (id : Int)
    (dirPath fileName : GoString) (s : Server) (e : Event) (he : e ∈ s.fs) :
    e ∈ (finishSubmission io r id dirPath fileName s).server.fs := by
  have hp := saveArticlePage_mono io r.title r.message dirPath fileName s.fs e he
  rcases (finishSubmission_cases io r id dirPath fileName s).2.2 with
    ⟨_, _, _, h⟩ | ⟨_, _, h, _⟩
  · rw [h]; exact hp
  · rw [h]; exact List.mem_cons_of_mem _ hp

theorem storeSubmission_mono (io : Outcomes) (r : Request) (s : Server) (e : Event)
    (he : e ∈ s.fs) : e ∈ (storeSubmission io r s).server.fs := by
  unfold storeSubmission
  cases io.mkdirAll
  · simp [he]
  · cases r.file with
    | failed => simp [he]
    | missing =>
      simp only [Bool.not_true, Bool.false_eq_true, if_false]
      exact finishSubmission_mono _ _ _ _ _ _ _ (List.mem_cons_of_mem _ he)
    | found header =>
      simp only [Bool.not_true, Bool.false_eq_true, if_false]
      split_ifs
      · simp [he]
      · exact saveUploadedFile_mono _ _ _ _ (List.mem_cons_of_mem _ he)
      · exact finishSubmission_mono _ _ _ _ _ _ _
          (saveUploadedFile_mono _ _ _ _ (List.mem_cons_of_mem _ he))

theorem handle_mono (io : Outcomes) (r : Request) (s : Server) (e : Event) (he : e ∈ s.fs) :
    e ∈ (handleFormSubmission io r s).server.fs := by
  by_cases hv : Validated r
  · rw [handle_of_validated io r s hv]
    exact storeSubmission_mono io r s e he
  · rw [(handle_of_not_validated io r s hv).1]
    exact he

theorem pageData_Title (title message fileName : GoString) :
    (pageData title message fileName).Title = title := by
  simp only [pageData]
  split_ifs <;> rfl

theorem Listed_handle (io : Outcomes) (r : Request) (s : Server) (h : Listed s) :
    Listed (handleFormSubmission io r s).server := by
  by_cases hv : Validated r
  · rw [handle_of_validated io r s hv]
    have hold : ∀ a ∈ s.articles,
        (⟨.create (pagePath a.ID), true⟩ : Event) ∈ (storeSubmission io r s).server.fs ∧
        ∃ data : ArticlePageData, data.Title = a.Title ∧
          (⟨.execute (pagePath a.ID) data, true⟩ : Event) ∈
            (storeSubmission io r s).server.fs := by
      intro a ha
      obtain ⟨h1, data, h2, h3⟩ := h a ha
      exact ⟨storeSubmission_mono _ _ _ _ h1, data, h2, storeSubmission_mono _ _ _ _ h3⟩
    rcases (storeSubmission_cases io r s).2.2 with ⟨hart, _, _⟩ | ⟨hart, _, _, _, hfs, _⟩
    · intro a ha
      rw [hart] at ha
      exact hold a ha
    · obtain ⟨fileName, hexec, hcreate⟩ := hfs
      intro a ha
      rw [hart] at ha
      rcases List.mem_cons.mp ha with ha | ha
      · subst ha
        exact ⟨hcreate, _, pageData_Title _ _ _, hexec⟩
      · exact hold a ha
  · rw [(handle_of_not_validated io r s hv).1]
    exact h

theorem Listed_run (reqs : List (Outcomes × Request)) (s : Server) (h : Listed s) :
    Listed (run reqs s) := by
  induction reqs generalizing s with
  | nil => exact h
  | cons p reqs ih => exact ih _ (Listed_handle p.1 p.2 s h)

/-- C10: starting from an empty list and no operation done, after every sequence of
requests, whatever the outcome of each I/O step, every article in the list has a
page at `articles/<id>/index.html` that was created and rendered with success, on
data carrying its title; and a request changes the list only if `saveArticlePage`
returned true and, when a file is attached, `saveUploadedFile` returned true. -/
theorem listed_articles_have_pages (reqs : List (Outcomes × Request)) :
    (∀ a ∈ (run reqs fresh).articles,
      (⟨.create (lit "articles/" ++ Itoa a.ID ++ lit "/index.html"), true⟩ : Event) ∈
        (run reqs fresh).fs ∧
      ∃ data : ArticlePageData, data.Title = a.Title ∧
        (⟨.execute (lit "articles/" ++ Itoa a.ID ++ lit "/index.html") data, true⟩ : Event) ∈
          (run reqs fresh).fs) ∧
    (∀ (io : Outcomes) (r : Request) (s : Server),
      (handleFormSubmission io r s).server.articles ≠ s.articles →
        (∀ dirPath fileName fs,
          (saveArticlePage io r.title r.message dirPath fileName fs).1 = true) ∧
        (∀ header, r.file = .found header →
          ∀ dirPath fs, (saveUploadedFile io dirPath fs).1 = true)) := by
  constructor
  · intro a ha
    have h := Listed_run reqs fresh (by intro a ha; cases ha) a ha
    rw [pagePath_eq] at h
    exact h
  · intro io r s hchange
    by_cases hv : Validated r
    · rw [handle_of_validated io r s hv] at hchange
      rcases (storeSubmission_cases io r s).2.2 with ⟨hart, _, _⟩ | ⟨_, _, hpage, hup, _, _⟩
      · exact absurd hart hchange
      · refine ⟨fun d f fs => (saveArticlePage_ok io _ _ d f fs).1.mpr hpage, ?_⟩
        intro header hh d fs
        exact (saveUploadedFile_ok io d fs).1.mpr (hup header hh).2
    · rw [(handle_of_not_validated io r s hv).1] at hchange
      exact absurd rfl hchange


/-! ### The upload of `src/1/main.go` -/

/-- C8, as stated, fails: for the article id 1 the upload of `a.png` is created at
`static/articles/1.png` and the upload of `b.jpg` at `static/articles/1.jpg`, two
different paths; and the upload of `x.html` is created at `static/articles/1.html`,
the very path at which the page is created next. -/
theorem upload_path_varies_with_file_name :
    V1.createdPaths (V1.submitArticle V1.allOk
        ⟨true, lit "Hello", lit "World", .found (lit "a.png")⟩ ⟨[], 1, []⟩).2.fs =
      [lit "static/articles/1.png", lit "static/articles/1.html"] ∧
    V1.createdPaths (V1.submitArticle V1.allOk
        ⟨true, lit "Hello", lit "World", .found (lit "b.jpg")⟩ ⟨[], 1, []⟩).2.fs =
      [lit "static/articles/1.jpg", lit "static/articles/1.html"] ∧
    V1.createdPaths (V1.submitArticle V1.allOk
        ⟨true, lit "Hello", lit "World", .found (lit "x.html")⟩ ⟨[], 1, []⟩).2.fs =
      [lit "static/articles/1.html", lit "static/articles/1.html"] := by
  decide

/-- C8, amended: `submitArticle` creates the upload at
`static/articles/<id><ext>`, `<id>` the article id and `<ext>` the extension
`filepath.Ext` of the file name the caller supplied. The path is fixed by the id
and that extension: two file names give the same path exactly when their
extensions are equal. -/
theorem upload_path_by_id_and_extension (id : Int) (name1 name2 : GoString) :
    V1.uploadPath id name1 = lit "static/articles/" ++ Itoa id ++ Ext name1 ∧
    (V1.uploadPath id name1 = V1.uploadPath id name2 ↔ Ext name1 = Ext name2) ∧
    (∀ (io : V1.Outcomes) (r : V1.Request) (s : V1.Server),
      r.formParses = true →
      ¬ (r.title.length = 0 ∨ r.title.length > 75 ∨ r.message.length = 0 ∨
        r.message.length > 200000) →
      r.file = .found name1 → s.nextArticleID = id →
      (⟨.create (lit "static/articles/" ++ Itoa id ++ Ext name1), io.createUpload⟩ :
        V1.Event) ∈ (V1.submitArticle io r s).2.fs) := by
  refine ⟨V1.uploadPath_v1_eq id name1, ?_, ?_⟩
  · rw [V1.uploadPath_v1_eq, V1.uploadPath_v1_eq]
    constructor
    · intro h
      exact List.append_cancel_left h
    · intro h
      rw [h]
  · intro io r s hp hlen hfile hid
    rw [← V1.uploadPath_v1_eq, ← hid]
    unfold V1.submitArticle
    rw [if_neg (by simp [hp]), if_neg hlen]
    simp only [hfile]
    unfold V1.storeArticle V1.saveArticleToFile V1.saveArticles
    cases io.createUpload <;> cases io.copyUpload <;> cases io.parseFiles <;>
      cases io.createPage <;> cases io.execute <;> cases io.writeFile <;> simp


/-! ### The counter -/

theorem wrapInt32_of_range (x : Int) (h1 : -2 ^ 31 ≤ x) (h2 : x < 2 ^ 31) :
    wrapInt32 x = x := by
  unfold wrapInt32
  norm_num at h1 h2 ⊢
  omega

theorem run_append (l1 l2 : List (Outcomes × Request)) (s : Server) :
    run (l1 ++ l2) s = run l2 (run l1 s) := by
  induction l1 generalizing s with
  | nil => rfl
  | cons p l1 ih => exact ih _

theorem allocated_append (l1 l2 : List (Outcomes × Request)) (s : Server) :
    allocated (l1 ++ l2) s = allocated l1 s ++ allocated l2 (run l1 s) := by
  induction l1 generalizing s with
  | nil => rfl
  | cons p l1 ih =>
    obtain ⟨io, r⟩ := p
    simp only [List.cons_append, allocated, run]
    cases (handleFormSubmission io r s).currentID <;> simp [ih]

/-- One step of `allocated`, by whether the request passes the checks. -/
theorem allocated_cons (io : Outcomes) (r : Request) (rest : List (Outcomes × Request))
    (s : Server) :
    (Validated r → allocated ((io, r) :: rest) s =
      (atomicAddInt32 s.articleID 1 - 1) :: allocated rest (storeSubmission io r s).server ∧
      (storeSubmission io r s).server.articleID = atomicAddInt32 s.articleID 1 ∧
      run ((io, r) :: rest) s = run rest (storeSubmission io r s).server) ∧
    (¬ Validated r → allocated ((io, r) :: rest) s = allocated rest s ∧
      run ((io, r) :: rest) s = run rest s) := by
  constructor
  · intro hv
    have h := storeSubmission_cases io r s
    simp only [allocated, run, handle_of_validated io r s hv, h.1]
    exact ⟨trivial, h.2.1, trivial⟩
  · intro hv
    have h := handle_of_not_validated io r s hv
    simp only [allocated, run, h.1, h.2.1]
    exact ⟨trivial, trivial⟩

/-- While the counter stays within `int32`, the IDs allocated are the successive
values of the counter, and the counter has advanced by their number. -/
theorem allocated_eq_range (reqs : List (Outcomes × Request)) (s : Server)
    (hlo : -2 ^ 31 ≤ s.articleID)
    (hhi : s.articleID + (allocated reqs s).length ≤ 2 ^ 31 - 1) :
    allocated reqs s =
        (List.range (allocated reqs s).length).map (fun k : Nat => s.articleID + (k : Int)) ∧
      (run reqs s).articleID = s.articleID + (allocated reqs s).length := by
  induction reqs generalizing s with
  | nil => simp [allocated, run]
  | cons p reqs ih =>
    obtain ⟨io, r⟩ := p
    by_cases hv : Validated r
    · obtain ⟨hal, hctr, hrun⟩ := (allocated_cons io r reqs s).1 hv
      rw [hal] at hhi ⊢
      rw [hrun]
      simp only [List.length_cons, Nat.cast_add, Nat.cast_one] at hhi
      have hw : atomicAddInt32 s.articleID 1 = s.articleID + 1 := by
        unfold atomicAddInt32
        apply wrapInt32_of_range
        · omega
        · have : (0 : Int) ≤ ((allocated reqs (storeSubmission io r s).server).length : Int) :=
            Int.natCast_nonneg _
          norm_num at hhi ⊢
          omega
      have hih := ih (storeSubmission io r s).server (by rw [hctr, hw]; omega)
        (by rw [hctr, hw]; omega)
      rw [hctr, hw] at hih
      constructor
      · rw [hw]
        simp only [List.length_cons, List.range_succ_eq_map, List.map_cons, List.map_map]
        congr 1
        · simp
        · refine hih.1.trans ?_
          apply List.map_congr_left
          intro k _
          simp only [Function.comp, Nat.cast_succ]
          omega
      · rw [hih.2, List.length_cons]
        push_cast
        omega
    · obtain ⟨hal, hrun⟩ := (allocated_cons io r reqs s).2 hv
      rw [hal] at hhi ⊢
      rw [hrun]
      exact ih s hlo hhi

theorem allocated_length_le (reqs : List (Outcomes × Request)) (s : Server) :
    (allocated reqs s).length ≤ reqs.length := by
  induction reqs generalizing s with
  | nil => simp [allocated]
  | cons p reqs ih =>
    obtain ⟨io, r⟩ := p
    simp only [allocated]
    cases (handleFormSubmission io r s).currentID
    · exact Nat.le_succ_of_le (ih _)
    · exact Nat.succ_le_succ (ih _)

theorem allocated_replicate_length (n : Nat) (io : Outcomes) (r : Request) (s : Server)
    (hv : Validated r) : (allocated (List.replicate n (io, r)) s).length = n := by
  induction n generalizing s with
  | zero => rfl
  | succ n ih =>
    rw [List.replicate_succ, ((allocated_cons io r _ s).1 hv).1, List.length_cons, ih]

/-- C1, as stated, fails: after 2^31 - 2 submissions of one process run have been
given the IDs 1, 2, ... the counter wraps around, and the next submission is given
the ID -2^31 - 1, smaller than all of them. -/
theorem ids_decrease_at_wraparound :
    ¬ (allocated (List.replicate (2 ^ 31 - 1) (allOk, helloWorld)) fresh).Pairwise (· < ·) := by
  have hv : Validated helloWorld := by decide
  have hsplit : List.replicate (2 ^ 31 - 1) (allOk, helloWorld) =
      (allOk, helloWorld) :: List.replicate (2 ^ 31 - 3) (allOk, helloWorld) ++
        [(allOk, helloWorld)] := by
    rw [show (2 : Nat) ^ 31 - 1 = (1 + (2 ^ 31 - 3)) + 1 by norm_num, List.replicate_succ',
      List.replicate_add]
    rfl
  have hlen : (allocated ((allOk, helloWorld) :: List.replicate (2 ^ 31 - 3) (allOk, helloWorld))
      fresh).length = 2 ^ 31 - 2 := by
    have := allocated_replicate_length (2 ^ 31 - 2) allOk helloWorld fresh hv
    rw [show (2 : Nat) ^ 31 - 2 = (2 ^ 31 - 3) + 1 by norm_num, List.replicate_succ] at this
    rw [this]
    norm_num
  have hrange := allocated_eq_range
    ((allOk, helloWorld) :: List.replicate (2 ^ 31 - 3) (allOk, helloWorld)) fresh
    (by show -(2 : Int) ^ 31 ≤ 1; norm_num)
    (by rw [hlen]; show (1 : Int) + ((2 ^ 31 - 2 : Nat) : Int) ≤ 2 ^ 31 - 1; norm_num)
  have hfirst : (1 : Int) ∈
      allocated ((allOk, helloWorld) :: List.replicate (2 ^ 31 - 3) (allOk, helloWorld)) fresh := by
    rw [((allocated_cons allOk helloWorld _ fresh).1 hv).1]
    exact List.mem_cons_self _ _
  have hctr : (run ((allOk, helloWorld) :: List.replicate (2 ^ 31 - 3) (allOk, helloWorld))
      fresh).articleID = 2 ^ 31 - 1 := by
    rw [hrange.2, hlen]
    show (1 : Int) + ((2 ^ 31 - 2 : Nat) : Int) = 2 ^ 31 - 1
    norm_num
  have hlast : allocated [(allOk, helloWorld)]
      (run ((allOk, helloWorld) :: List.replicate (2 ^ 31 - 3) (allOk, helloWorld)) fresh) =
      [-2 ^ 31 - 1] := by
    rw [((allocated_cons allOk helloWorld [] _).1 hv).1, hctr]
    simp only [allocated, List.cons.injEq, and_true]
    unfold atomicAddInt32 wrapInt32
    norm_num
  intro hpw
  rw [hsplit, allocated_append, hlast, List.pairwise_append] at hpw
  have := hpw.2.2 1 hfirst (-2 ^ 31 - 1) (List.mem_singleton.mpr rfl)
  norm_num at this

/-- C1, amended: in a process run (the counter starts at 1), as long as at most
2^31 - 2 IDs are allocated, the ID of each submission is strictly greater than the
ID of every earlier submission; the IDs are 1, 2, 3, ... in order. -/
theorem ids_increase_within_int32 (reqs : List (Outcomes × Request)) (s : Server)
    (hs : s.articleID = 1) (hlen : (allocated reqs s).length ≤ 2 ^ 31 - 2) :
    (allocated reqs s).Pairwise (· < ·) ∧
      allocated reqs s =
        (List.range (allocated reqs s).length).map (fun k : Nat => (1 : Int) + (k : Int)) := by
  have h := (allocated_eq_range reqs s (by rw [hs]; norm_num)
    (by
      rw [hs]
      have : ((allocated reqs s).length : Int) ≤ ((2 ^ 31 - 2 : Nat) : Int) :=
        Int.ofNat_le.mpr hlen
      norm_num at this ⊢
      omega)).1
  rw [hs] at h
  refine ⟨?_, h⟩
  rw [h]
  apply List.Pairwise.map _ _ (List.pairwise_lt_range _)
  intro a b hab
  show (1 : Int) + (a : Int) < 1 + (b : Int)
  omega

/-- Witness of C1 amended: two submissions on a fresh server get the IDs 1 and 2. -/
theorem ids_increase_within_int32_witness :
    (allocated [(allOk, helloWorld), (allOk, helloWorld)] fresh).Pairwise (· < ·) ∧
      allocated [(allOk, helloWorld), (allOk, helloWorld)] fresh =
        (List.range (allocated [(allOk, helloWorld), (allOk, helloWorld)] fresh).length).map
          (fun k : Nat => (1 : Int) + (k : Int)) :=
  ids_increase_within_int32 [(allOk, helloWorld), (allOk, helloWorld)] fresh rfl (by decide)

/-- C2, the failing input: a first run stores one article with the ID 1 and writes
`articles.json`; the process restarted on that file lists the article 1, and the
first ID it allocates is 1 again, not a greater one. -/
theorem first_id_after_restart_repeats :
    (handleFormSubmission allOk helloWorld fresh).server.fs.head? =
        some ⟨.writeFile (lit "articles.json") (Marshal [⟨1, lit "Hello"⟩]), true⟩ ∧
      start (some (.ok (Marshal [⟨1, lit "Hello"⟩]))) = some ⟨1, [⟨1, lit "Hello"⟩], []⟩ ∧
      (handleFormSubmission allOk helloWorld ⟨1, [⟨1, lit "Hello"⟩], []⟩).currentID = some 1 ∧
      (handleFormSubmission allOk helloWorld ⟨1, [⟨1, lit "Hello"⟩], []⟩).server.articles =
        [⟨1, lit "Hello"⟩, ⟨1, lit "Hello"⟩] ∧
      start none = some fresh ∧
      (handleFormSubmission allOk helloWorld fresh).currentID = some 1 := by
  decide


/-! ### Numbers: `parseInt` reads back what `Itoa` writes -/

theorem digitsAux_acc (fuel n : Nat) (acc : GoString) :
    digitsAux fuel n acc = digitsAux fuel n [] ++ acc := by
  induction fuel generalizing n acc with
  | zero => simp [digitsAux]
  | succ fuel ih =>
    unfold digitsAux
    split_ifs with h
    · simp
    · rw [ih, ih (n / 10) [48 + n % 10]]
      simp

/-- Value of a digit string read from the left on top of `a`, as `parseDigits`
accumulates it. -/
theorem parseDigits_append (ds rest : GoString) (a : Nat)
    (hds : ∀ x ∈ ds, 48 ≤ x ∧ x ≤ 57)
    (hrest : ∀ d ∈ rest.head?, ¬ (48 ≤ d ∧ d ≤ 57)) :
    parseDigits (ds ++ rest) a = (ds.foldl (fun v d => v * 10 + (d - 48)) a, rest) := by
  induction ds generalizing a with
  | nil =>
    cases rest with
    | nil => simp [parseDigits]
    | cons d rest =>
      have := hrest d (by simp)
      simp [parseDigits, this]
  | cons c ds ih =>
    have hc := hds c (List.mem_cons_self _ _)
    simp only [List.cons_append, parseDigits, hc, and_self, if_true, List.foldl_cons]
    exact ih _ (fun x hx => hds x (List.mem_cons_of_mem _ hx))

theorem digitsAux_value (fuel n : Nat) (h : n < fuel) :
    (digitsAux fuel n []).foldl (fun v d => v * 10 + (d - 48)) 0 = n := by
  induction fuel generalizing n with
  | zero => omega
  | succ fuel ih =>
    unfold digitsAux
    split_ifs with h10
    · simp
    · rw [digitsAux_acc, List.foldl_append, ih (n / 10) (by omega)]
      simp
      omega

theorem digitsAux_head (fuel n : Nat) (h : n < fuel) (hn : 1 ≤ n) :
    ∃ c t, digitsAux fuel n [] = c :: t ∧ 49 ≤ c ∧ c ≤ 57 := by
  induction fuel generalizing n with
  | zero => omega
  | succ fuel ih =>
    unfold digitsAux
    split_ifs with h10
    · exact ⟨48 + n, [], rfl, by omega, by omega⟩
    · obtain ⟨c, t, hct, hc⟩ := ih (n / 10) (by omega) (by omega)
      rw [digitsAux_acc, hct]
      exact ⟨c, t ++ [48 + n % 10], rfl, hc⟩

/-- The decimal text of a natural number, followed by a byte that is no digit, is
read back by `parseDigits`; it has no superfluous leading zero. -/
theorem formatNat_spec (n : Nat) :
    (∀ x ∈ formatNat n, 48 ≤ x ∧ x ≤ 57) ∧
    (formatNat n).foldl (fun v d => v * 10 + (d - 48)) 0 = n ∧
    (∃ c t, formatNat n = c :: t ∧ 48 ≤ c ∧ c ≤ 57 ∧ (c = 48 → t = [])) := by
  refine ⟨digitsAux_chars _ _ [] (by simp), digitsAux_value _ _ (by omega), ?_⟩
  by_cases hn : 1 ≤ n
  · obtain ⟨c, t, hct, hc⟩ := digitsAux_head (n + 1) n (by omega) hn
    exact ⟨c, t, hct, by omega, by omega, by omega⟩
  · have : n = 0 := by omega
    subst this
    exact ⟨48, [], rfl, by omega, by omega, fun _ => rfl⟩

/-- The number `Itoa` writes is read back by `parseInt` when it fits 64 bits and is
followed by a byte that cannot continue a number. -/
theorem parseInt_Itoa (i : Int) (rest : GoString) (hlo : -2 ^ 63 ≤ i) (hhi : i < 2 ^ 63)
    (hrest : ∀ d ∈ rest.head?, ¬ (48 ≤ d ∧ d ≤ 57) ∧ d ≠ 46 ∧ d ≠ 101 ∧ d ≠ 69) :
    parseInt (Itoa i ++ rest) = some (i, rest) := by
  obtain ⟨hchars, hval, c, t, hct, hc1, hc2, hzero⟩ := formatNat_spec i.natAbs
  have hpd := parseDigits_append (formatNat i.natAbs) rest 0 hchars
    (fun d hd => (hrest d hd).1)
  rw [hval] at hpd
  have hlead : ¬ (c = 48 ∧ ∃ d ∈ (t ++ rest).head?, 48 ≤ d ∧ d ≤ 57) := by
    rintro ⟨h48, d, hd, hdig⟩
    rw [hzero h48] at hd
    exact (hrest d hd).1 hdig
  have hnum : ¬ (rest.head? = some 46 ∨ rest.head? = some 101 ∨ rest.head? = some 69) := by
    rintro (h | h | h)
    · exact (hrest 46 (by simp [h])).2.1 rfl
    · exact (hrest 101 (by simp [h])).2.2.1 rfl
    · exact (hrest 69 (by simp [h])).2.2.2 rfl
  unfold parseInt Itoa
  by_cases hneg : i < 0
  · rw [if_pos hneg]
    simp only [List.cons_append, List.head?_cons, if_true, List.drop_succ_cons, List.drop_zero]
    rw [hct] at hpd ⊢
    simp only [List.cons_append] at hpd ⊢
    rw [hpd]
    simp only [hc1, hc2, and_self, not_true_eq_false, if_false, hlead, hnum]
    have hv : -((i.natAbs : Nat) : Int) = i := by omega
    rw [hv, if_pos ⟨hlo, hhi⟩]
  · rw [if_neg hneg, hct]
    have h45 : ¬ ((c :: t ++ rest).head? = some 45) := by
      simp
      omega
    simp only [h45, if_false]
    rw [hct] at hpd
    simp only [List.cons_append] at hpd ⊢
    rw [hpd]
    simp only [hc1, hc2, and_self, not_true_eq_false, if_false, hlead, hnum]
    have hv : ((i.natAbs : Nat) : Int) = i := by omega
    rw [hv, if_pos ⟨hlo, hhi⟩]


/-! ### UTF-8: decoding and encoding a rune -/

theorem DecodeRune_ascii (s0 : Nat) (rest : GoString) (h : s0 < 0x80) :
    DecodeRune (s0 :: rest) = (s0, 1) := by
  simp [DecodeRune, h]

theorem DecodeRune_two (s0 s1 : Nat) (t : GoString)
    (h : 0xC2 ≤ s0 ∧ s0 ≤ 0xDF ∧ 0x80 ≤ s1 ∧ s1 ≤ 0xBF) :
    DecodeRune (s0 :: s1 :: t) = ((s0 % 32) * 64 + s1 % 64, 2) := by
  have h0 : ¬ s0 < 0x80 := by omega
  have hlen : seqLen s0 = 2 := by
    unfold seqLen
    rw [if_neg h0, if_pos ⟨h.1, h.2.1⟩]
  have hlo : acceptLo s0 = 0x80 := by
    unfold acceptLo
    rw [if_neg (by omega), if_neg (by omega)]
  have hhi : acceptHi s0 = 0xBF := by
    unfold acceptHi
    rw [if_neg (by omega), if_neg (by omega)]
  simp only [DecodeRune, h0, hlen, hlo, hhi, if_false]
  rw [if_neg (by omega), if_neg (by simp), if_neg (by omega), if_pos (le_refl _)]

theorem DecodeRune_three (s0 s1 s2 : Nat) (t : GoString)
    (h : 0xE0 ≤ s0 ∧ s0 ≤ 0xEF ∧ acceptLo s0 ≤ s1 ∧ s1 ≤ acceptHi s0 ∧ 0x80 ≤ s2 ∧ s2 ≤ 0xBF) :
    DecodeRune (s0 :: s1 :: s2 :: t) = ((s0 % 16) * 4096 + (s1 % 64) * 64 + s2 % 64, 3) := by
  have h0 : ¬ s0 < 0x80 := by omega
  have hlen : seqLen s0 = 3 := by
    unfold seqLen
    rw [if_neg h0, if_neg (by omega), if_pos ⟨h.1, h.2.1⟩]
  have hc2 : isCont s2 = true := by simp [isCont, h.2.2.2.2.1, h.2.2.2.2.2]
  simp only [DecodeRune, h0, hlen, hc2, if_false]
  rw [if_neg (by omega), if_neg (by simp), if_neg (by omega), if_neg (by omega),
    if_neg (by simp), if_pos (le_refl _)]

theorem DecodeRune_four (s0 s1 s2 s3 : Nat) (t : GoString)
    (h : 0xF0 ≤ s0 ∧ s0 ≤ 0xF4 ∧ acceptLo s0 ≤ s1 ∧ s1 ≤ acceptHi s0 ∧ 0x80 ≤ s2 ∧ s2 ≤ 0xBF ∧
      0x80 ≤ s3 ∧ s3 ≤ 0xBF) :
    DecodeRune (s0 :: s1 :: s2 :: s3 :: t) =
      ((s0 % 8) * 262144 + (s1 % 64) * 4096 + (s2 % 64) * 64 + s3 % 64, 4) := by
  have h0 : ¬ s0 < 0x80 := by omega
  have hlen : seqLen s0 = 4 := by
    unfold seqLen
    rw [if_neg h0, if_neg (by omega), if_neg (by omega), if_pos ⟨h.1, h.2.1⟩]
  have hc2 : isCont s2 = true := by simp [isCont, h.2.2.2.2.1, h.2.2.2.2.2.1]
  have hc3 : isCont s3 = true := by simp [isCont, h.2.2.2.2.2.2.1, h.2.2.2.2.2.2.2]
  simp only [DecodeRune, h0, hlen, hc2, hc3, if_false]
  rw [if_neg (by omega), if_neg (by simp), if_neg (by omega), if_neg (by omega),
    if_neg (by simp), if_neg (by omega), if_neg (by simp)]

/-- The shapes of a decoding that starts at a byte outside ASCII: an error of width
1, or a well-formed sequence of two, three or four bytes. -/
theorem DecodeRune_cases (s0 : Nat) (rest : GoString) (h80 : 0x80 ≤ s0) :
    DecodeRune (s0 :: rest) = (RuneError, 1) ∨
    (∃ s1 t, rest = s1 :: t ∧ 0xC2 ≤ s0 ∧ s0 ≤ 0xDF ∧ 0x80 ≤ s1 ∧ s1 ≤ 0xBF) ∨
    (∃ s1 s2 t, rest = s1 :: s2 :: t ∧ 0xE0 ≤ s0 ∧ s0 ≤ 0xEF ∧ acceptLo s0 ≤ s1 ∧
      s1 ≤ acceptHi s0 ∧ 0x80 ≤ s2 ∧ s2 ≤ 0xBF) ∨
    (∃ s1 s2 s3 t, rest = s1 :: s2 :: s3 :: t ∧ 0xF0 ≤ s0 ∧ s0 ≤ 0xF4 ∧ acceptLo s0 ≤ s1 ∧
      s1 ≤ acceptHi s0 ∧ 0x80 ≤ s2 ∧ s2 ≤ 0xBF ∧ 0x80 ≤ s3 ∧ s3 ≤ 0xBF) := by
  have h0 : ¬ s0 < 0x80 := by omega
  by_cases h2 : 0xC2 ≤ s0 ∧ s0 ≤ 0xDF
  · have hlen : seqLen s0 = 2 := by
      unfold seqLen
      rw [if_neg h0, if_pos h2]
    have hlo : acceptLo s0 = 0x80 := by
      unfold acceptLo
      rw [if_neg (by omega), if_neg (by omega)]
    have hhi : acceptHi s0 = 0xBF := by
      unfold acceptHi
      rw [if_neg (by omega), if_neg (by omega)]
    rcases rest with _ | ⟨s1, t⟩
    · left
      simp [DecodeRune, h0, hlen]
    · by_cases hs1 : 0x80 ≤ s1 ∧ s1 ≤ 0xBF
      · exact Or.inr (Or.inl ⟨s1, t, rfl, h2.1, h2.2, hs1.1, hs1.2⟩)
      · left
        simp only [DecodeRune, h0, hlen, hlo, hhi, if_false]
        rw [if_neg (by omega), if_neg (by simp), if_pos (by omega)]
  · by_cases h3 : 0xE0 ≤ s0 ∧ s0 ≤ 0xEF
    · have hlen : seqLen s0 = 3 := by
        unfold seqLen
        rw [if_neg h0, if_neg h2, if_pos h3]
      rcases rest with _ | ⟨s1, _ | ⟨s2, t⟩⟩
      · left
        simp [DecodeRune, h0, hlen]
      · left
        simp [DecodeRune, h0, hlen]
      · by_cases hs1 : acceptLo s0 ≤ s1 ∧ s1 ≤ acceptHi s0
        · by_cases hs2 : 0x80 ≤ s2 ∧ s2 ≤ 0xBF
          · exact Or.inr (Or.inr (Or.inl ⟨s1, s2, t, rfl, h3.1, h3.2, hs1.1, hs1.2, hs2.1, hs2.2⟩))
          · left
            have hc2 : isCont s2 = false := by
              simp only [isCont, Bool.and_eq_false_iff, decide_eq_false_iff_not]
              omega
            simp only [DecodeRune, h0, hlen, hc2, if_false]
            rw [if_neg (by omega), if_neg (by simp), if_neg (by omega), if_neg (by omega),
              if_pos (by simp)]
        · left
          simp only [DecodeRune, h0, hlen, if_false]
          rw [if_neg (by omega), if_neg (by simp), if_pos (by omega)]
    · by_cases h4 : 0xF0 ≤ s0 ∧ s0 ≤ 0xF4
      · have hlen : seqLen s0 = 4 := by
          unfold seqLen
          rw [if_neg h0, if_neg h2, if_neg h3, if_pos h4]
        rcases rest with _ | ⟨s1, _ | ⟨s2, _ | ⟨s3, t⟩⟩⟩
        · left
          simp [DecodeRune, h0, hlen]
        · left
          simp [DecodeRune, h0, hlen]
        · left
          simp [DecodeRune, h0, hlen]
        · by_cases hs1 : acceptLo s0 ≤ s1 ∧ s1 ≤ acceptHi s0
          · by_cases hs2 : 0x80 ≤ s2 ∧ s2 ≤ 0xBF
            · by_cases hs3 : 0x80 ≤ s3 ∧ s3 ≤ 0xBF
              · exact Or.inr (Or.inr (Or.inr ⟨s1, s2, s3, t, rfl, h4.1, h4.2, hs1.1, hs1.2,
                  hs2.1, hs2.2, hs3.1, hs3.2⟩))
              · left
                have hc2 : isCont s2 = true := by simp [isCont, hs2.1, hs2.2]
                have hc3 : isCont s3 = false := by
                  simp only [isCont, Bool.and_eq_false_iff, decide_eq_false_iff_not]
                  omega
                simp only [DecodeRune, h0, hlen, hc2, hc3, if_false]
                rw [if_neg (by omega), if_neg (by simp), if_neg (by omega), if_neg (by omega),
                  if_neg (by simp), if_neg (by omega), if_pos (by simp)]
            · left
              have hc2 : isCont s2 = false := by
                simp only [isCont, Bool.and_eq_false_iff, decide_eq_false_iff_not]
                omega
              simp only [DecodeRune, h0, hlen, hc2, if_false]
              rw [if_neg (by omega), if_neg (by simp), if_neg (by omega), if_neg (by omega),
                if_pos (by simp)]
          · left
            simp only [DecodeRune, h0, hlen, if_false]
            rw [if_neg (by omega), if_neg (by simp), if_pos (by omega)]
      · left
        have hlen : seqLen s0 = 0 := by
          unfold seqLen
          rw [if_neg h0, if_neg h2, if_neg h3, if_neg h4]
        simp [DecodeRune, h0, hlen]

theorem acceptLo_cases (s0 : Nat) :
    (s0 = 0xE0 ∧ acceptLo s0 = 0xA0) ∨ (s0 = 0xF0 ∧ acceptLo s0 = 0x90) ∨
      (s0 ≠ 0xE0 ∧ s0 ≠ 0xF0 ∧ acceptLo s0 = 0x80) := by
  unfold acceptLo
  split_ifs with h1 h2
  · exact Or.inl ⟨h1, rfl⟩
  · exact Or.inr (Or.inl ⟨h2, rfl⟩)
  · exact Or.inr (Or.inr ⟨h1, h2, rfl⟩)

theorem acceptHi_cases (s0 : Nat) :
    (s0 = 0xED ∧ acceptHi s0 = 0x9F) ∨ (s0 = 0xF4 ∧ acceptHi s0 = 0x8F) ∨
      (s0 ≠ 0xED ∧ s0 ≠ 0xF4 ∧ acceptHi s0 = 0xBF) := by
  unfold acceptHi
  split_ifs with h1 h2
  · exact Or.inl ⟨h1, rfl⟩
  · exact Or.inr (Or.inl ⟨h2, rfl⟩)
  · exact Or.inr (Or.inr ⟨h1, h2, rfl⟩)

/-- A decoding without error at a byte outside ASCII reads a sequence of two to four
bytes; these bytes are the encoding of the rune, and they decode to it whatever
follows them. -/
theorem DecodeRune_valid (s0 : Nat) (rest : GoString) (h80 : 0x80 ≤ s0)
    (hne : ¬ ((DecodeRune (s0 :: rest)).1 = RuneError ∧ (DecodeRune (s0 :: rest)).2 = 1)) :
    ∃ r pre post, rest = pre ++ post ∧ 1 ≤ pre.length ∧ EncodeRune r = s0 :: pre ∧
      r < 0x110000 ∧ 0x80 ≤ r ∧ ¬ (0xD800 ≤ r ∧ r < 0xE000) ∧
      (∀ tail, DecodeRune (s0 :: pre ++ tail) = (r, pre.length + 1)) := by
  rcases DecodeRune_cases s0 rest h80 with h | ⟨s1, t, hr, h⟩ | ⟨s1, s2, t, hr, h⟩ |
    ⟨s1, s2, s3, t, hr, h⟩
  · rw [h] at hne
    exact absurd ⟨rfl, rfl⟩ hne
  · refine ⟨(s0 % 32) * 64 + s1 % 64, [s1], t, hr, by simp, ?_, by omega, by omega, by omega,
      fun tail => DecodeRune_two s0 s1 tail h⟩
    unfold EncodeRune
    rw [if_neg (by omega), if_pos (by omega)]
    simp only [List.cons.injEq, and_true]
    omega
  · have hb : 0xA0 * (if s0 = 0xE0 then 1 else 0) ≤ s1 ∧ (s0 = 0xED → s1 ≤ 0x9F) ∧
        0x80 ≤ s1 ∧ s1 ≤ 0xBF := by
      rcases acceptLo_cases s0 with ⟨h1, h2⟩ | ⟨h1, h2⟩ | ⟨h1, h1', h2⟩ <;>
        rcases acceptHi_cases s0 with ⟨h3, h4⟩ | ⟨h3, h4⟩ | ⟨h3, h3', h4⟩ <;>
        (rw [h2, h4] at h
         split_ifs <;> omega)
    refine ⟨(s0 % 16) * 4096 + (s1 % 64) * 64 + s2 % 64, [s1, s2], t, hr, by simp, ?_, ?_, ?_,
      ?_, fun tail => DecodeRune_three s0 s1 s2 tail h⟩
    · unfold EncodeRune
      split_ifs at hb <;>
        (rw [if_neg (by omega), if_neg (by omega), if_neg (by omega), if_pos (by omega)]
         simp only [List.cons.injEq, and_true]
         omega)
    · omega
    · split_ifs at hb <;> omega
    · split_ifs at hb <;> omega
  · have hb : 0x90 * (if s0 = 0xF0 then 1 else 0) ≤ s1 ∧ (s0 = 0xF4 → s1 ≤ 0x8F) ∧
        0x80 ≤ s1 ∧ s1 ≤ 0xBF := by
      rcases acceptLo_cases s0 with ⟨h1, h2⟩ | ⟨h1, h2⟩ | ⟨h1, h1', h2⟩ <;>
        rcases acceptHi_cases s0 with ⟨h3, h4⟩ | ⟨h3, h4⟩ | ⟨h3, h3', h4⟩ <;>
        (rw [h2, h4] at h
         split_ifs <;> omega)
    refine ⟨(s0 % 8) * 262144 + (s1 % 64) * 4096 + (s2 % 64) * 64 + s3 % 64, [s1, s2, s3], t, hr,
      by simp, ?_, ?_, ?_, ?_, fun tail => DecodeRune_four s0 s1 s2 s3 tail h⟩
    · unfold EncodeRune
      split_ifs at hb <;>
        (rw [if_neg (by omega), if_neg (by omega), if_neg (by omega), if_neg (by omega)]
         simp only [List.cons.injEq, and_true]
         omega)
    · split_ifs at hb <;> omega
    · split_ifs at hb <;> omega
    · split_ifs at hb <;> omega

theorem seqLen_le (s0 : Nat) : seqLen s0 ≤ 4 := by
  unfold seqLen
  split_ifs <;> omega

/-- The decoder looks at four bytes at most. -/
theorem DecodeRune_take (l : GoString) : DecodeRune (l.take 4) = DecodeRune l := by
  rcases l with _ | ⟨s0, _ | ⟨s1, _ | ⟨s2, _ | ⟨s3, t⟩⟩⟩⟩
  · rfl
  · rfl
  · rfl
  · rfl
  · have h := seqLen_le s0
    have h1 : ¬ ((s1 :: s2 :: s3 :: t).length + 1 < seqLen s0) := by
      simp only [List.length_cons]
      omega
    have h2 : ¬ (([s1, s2, s3] : GoString).length + 1 < seqLen s0) := by
      simp only [List.length_cons, List.length_nil]
      omega
    simp only [List.take_succ_cons, List.take_zero, DecodeRune, h1, h2, if_false]


/-! ### Strings: `unquote` reads back what `appendString` writes -/

theorem hexVal_hexDigit (d : Nat) (h : d < 16) : hexVal (hexDigit d) = some d := by
  interval_cases d <;> rfl

theorem getu4_escape (d0 d1 d2 d3 : Nat) (t : GoString) (h0 : d0 < 16) (h1 : d1 < 16)
    (h2 : d2 < 16) (h3 : d3 < 16) :
    getu4 (92 :: 117 :: hexDigit d0 :: hexDigit d1 :: hexDigit d2 :: hexDigit d3 :: t) =
      some (((d0 * 16 + d1) * 16 + d2) * 16 + d3) := by
  simp only [getu4, hexVal_hexDigit _ h0, hexVal_hexDigit _ h1, hexVal_hexDigit _ h2,
    hexVal_hexDigit _ h3]

theorem emit_some (bs s rest : GoString) : emit bs (some (s, rest)) = some (bs ++ s, rest) := rfl

/-- Decoder step at an ordinary ASCII byte. -/
theorem unquoteLoop_plain (f c : Nat) (rest : GoString) (h1 : c ≠ 34) (h2 : c ≠ 92)
    (h3 : 0x20 ≤ c) (h4 : c < 0x80) :
    unquoteLoop (f + 1) (c :: rest) = emit [c] (unquoteLoop f rest) := by
  simp only [unquoteLoop]
  rw [if_neg h1, if_neg h2, if_neg (by omega), if_pos h4]

/-- Decoder step at a two-byte escape. -/
theorem unquoteLoop_short (f e v : Nat) (rest : GoString)
    (h : (e = 34 ∧ v = 34) ∨ (e = 92 ∧ v = 92) ∨ (e = 98 ∧ v = 8) ∨ (e = 102 ∧ v = 12) ∨
      (e = 110 ∧ v = 10) ∨ (e = 114 ∧ v = 13) ∨ (e = 116 ∧ v = 9)) :
    unquoteLoop (f + 1) (92 :: e :: rest) = emit [v] (unquoteLoop f rest) := by
  rw [unquoteLoop, if_neg (by decide), if_pos rfl]
  rcases h with ⟨he, hv⟩ | ⟨he, hv⟩ | ⟨he, hv⟩ | ⟨he, hv⟩ | ⟨he, hv⟩ | ⟨he, hv⟩ | ⟨he, hv⟩ <;>
    subst he <;> subst hv <;> simp

/-- Decoder step at a `\uXXXX` escape of a rune that is no surrogate. -/
theorem unquoteLoop_u (f rr c0 c1 c2 c3 : Nat) (rest : GoString)
    (hg : getu4 (92 :: 117 :: c0 :: c1 :: c2 :: c3 :: rest) = some rr)
    (hs : isSurrogate rr = false) :
    unquoteLoop (f + 1) (92 :: 117 :: c0 :: c1 :: c2 :: c3 :: rest) =
      emit (EncodeRune rr) (unquoteLoop f rest) := by
  rw [unquoteLoop, if_neg (by decide), if_pos rfl]
  simp only [hg, hs]
  simp

/-- Decoder step at a byte outside ASCII. -/
theorem unquoteLoop_multi (f c : Nat) (rest : GoString) (h : 0x80 ≤ c) :
    unquoteLoop (f + 1) (c :: rest) =
      emit (EncodeRune (DecodeRune (c :: rest)).1)
        (unquoteLoop f ((c :: rest).drop (DecodeRune (c :: rest)).2)) := by
  simp only [unquoteLoop]
  rw [if_neg (by omega), if_neg (by omega), if_neg (by omega), if_neg (by omega)]

theorem appendStringLoop_nil (fe : Nat) : appendStringLoop fe [] = [] := by
  cases fe <;> rfl

theorem escapeByte_length (b : Nat) : 2 ≤ (escapeByte b).length := by
  unfold escapeByte
  split_ifs <;> simp


theorem validLoop_cons (fv b : Nat) (t : GoString) (h : validLoop fv (b :: t) = true) :
    ¬ ((DecodeRune (b :: t)).1 = RuneError ∧ (DecodeRune (b :: t)).2 = 1) ∧
      ∃ fv', validLoop fv' ((b :: t).drop (DecodeRune (b :: t)).2) = true := by
  rcases fv with _ | fv'
  · simp [validLoop] at h
  · simp only [validLoop] at h
    by_cases hd : (DecodeRune (b :: t)).1 = RuneError ∧ (DecodeRune (b :: t)).2 = 1
    · rw [if_pos hd] at h
      exact absurd h (by decide)
    · rw [if_neg hd] at h
      exact ⟨hd, fv', h⟩

theorem unquoteLoop_quote (fd : Nat) (rest : GoString) (h : 0 < fd) :
    unquoteLoop fd (34 :: rest) = some ([], rest) := by
  obtain ⟨k, rfl⟩ : ∃ k, fd = k + 1 := ⟨fd - 1, by omega⟩
  simp [unquoteLoop]

/-- The body of a literal written by `appendString` for a valid UTF-8 string, up to
the closing quote, is decoded to that string. -/
theorem unquoteLoop_appendStringLoop (n : Nat) :
    ∀ (s : GoString), s.length ≤ n → (∃ fv, validLoop fv s = true) →
    ∀ (fe fd : Nat) (rest : GoString), s.length ≤ fe → (appendStringLoop fe s).length < fd →
      unquoteLoop fd (appendStringLoop fe s ++ 34 :: rest) = some (s, rest) := by
  induction n with
  | zero =>
    intro s hlen _ fe fd rest _ hfd
    have : s = [] := List.length_eq_zero.mp (by omega)
    subst this
    rw [appendStringLoop_nil] at hfd ⊢
    exact unquoteLoop_quote fd rest (by simpa using hfd)
  | succ n ih =>
    intro s hlen hvalid fe fd rest hfe hfd
    rcases s with _ | ⟨b, t⟩
    · rw [appendStringLoop_nil] at hfd ⊢
      exact unquoteLoop_quote fd rest (by simpa using hfd)
    · obtain ⟨fv, hv⟩ := hvalid
      obtain ⟨hne, hvt⟩ := validLoop_cons fv b t hv
      obtain ⟨fe', rfl⟩ : ∃ k, fe = k + 1 := ⟨fe - 1, by simp at hfe; omega⟩
      obtain ⟨fd', rfl⟩ : ∃ k, fd = k + 1 := ⟨fd - 1, by omega⟩
      simp only [List.length_cons] at hlen hfe
      by_cases hb : b < 0x80
      · rw [DecodeRune_ascii b t hb] at hvt
        simp only [List.drop_succ_cons, List.drop_zero] at hvt
        by_cases hsafe : htmlSafe b = true
        · have henc : appendStringLoop (fe' + 1) (b :: t) = b :: appendStringLoop fe' t := by
            simp only [appendStringLoop, hb, hsafe, if_true]
          rw [henc] at hfd ⊢
          simp only [List.length_cons] at hfd
          simp only [htmlSafe, Bool.and_eq_true, decide_eq_true_eq, bne_iff_ne, ne_eq] at hsafe
          rw [List.cons_append, unquoteLoop_plain fd' b _ (by omega) (by omega) (by omega) hb,
            ih t (by omega) hvt fe' fd' rest (by omega) (by omega), emit_some]
          rfl
        · have henc : appendStringLoop (fe' + 1) (b :: t) =
              escapeByte b ++ appendStringLoop fe' t := by
            simp only [appendStringLoop, hb, hsafe, if_true]
            simp
          rw [henc] at hfd ⊢
          have hel := escapeByte_length b
          simp only [List.length_append] at hfd
          have hih := ih t (by omega) hvt fe' fd' rest (by omega) (by omega)
          unfold escapeByte
          by_cases h1 : b = 92 ∨ b = 34
          · rw [if_pos h1]
            simp only [List.append_assoc, List.cons_append, List.nil_append]
            rw [unquoteLoop_short fd' b b _ (by omega), hih, emit_some]
            rfl
          · rw [if_neg h1]
            by_cases h2 : b = 8 ∨ b = 12 ∨ b = 10 ∨ b = 13 ∨ b = 9
            · have hshort : ∃ e, (if b = 8 then [92, 98] else if b = 12 then [92, 102]
                  else if b = 10 then [92, 110] else if b = 13 then [92, 114]
                  else if b = 9 then [92, 116]
                  else [92, 117, 48, 48, hexDigit (b / 16), hexDigit (b % 16)]) = [92, e] ∧
                  ((e = 34 ∧ b = 34) ∨ (e = 92 ∧ b = 92) ∨ (e = 98 ∧ b = 8) ∨
                    (e = 102 ∧ b = 12) ∨ (e = 110 ∧ b = 10) ∨ (e = 114 ∧ b = 13) ∨
                    (e = 116 ∧ b = 9)) := by
                rcases h2 with h | h | h | h | h <;> subst h <;> simp
              obtain ⟨e, he, hev⟩ := hshort
              rw [he]
              simp only [List.append_assoc, List.cons_append, List.nil_append]
              rw [unquoteLoop_short fd' e b _ hev, hih, emit_some]
              rfl
            · rw [if_neg (by omega), if_neg (by omega), if_neg (by omega), if_neg (by omega),
                if_neg (by omega)]
              simp only [List.append_assoc, List.cons_append, List.nil_append]
              have hg : getu4 (92 :: 117 :: 48 :: 48 :: hexDigit (b / 16) :: hexDigit (b % 16) ::
                  (appendStringLoop fe' t ++ 34 :: rest)) = some b := by
                have h := getu4_escape 0 0 (b / 16) (b % 16)
                  (appendStringLoop fe' t ++ 34 :: rest) (by omega) (by omega) (by omega)
                  (by omega)
                have e : ((0 * 16 + 0) * 16 + b / 16) * 16 + b % 16 = b := by omega
                rw [e] at h
                exact h
              have hsur : isSurrogate b = false := by
                simp only [isSurrogate, Bool.and_eq_false_iff, decide_eq_false_iff_not]
                omega
              have hen : EncodeRune b = [b] := by
                unfold EncodeRune
                rw [if_pos (by omega)]
              rw [unquoteLoop_u fd' b _ _ _ _ _ hg hsur, hih, emit_some, hen]
              rfl
      · obtain ⟨r, pre, post, ht, hpre, henc_r, hr1, hr2, hr3, hdec⟩ :=
          DecodeRune_valid b t (by omega) hne
        subst ht
        have hd : DecodeRune (b :: (pre ++ post)) = (r, pre.length + 1) := hdec post
        rw [hd] at hvt
        have hdrop : (b :: (pre ++ post)).drop (pre.length + 1) = post := by simp
        have htake : (b :: (pre ++ post)).take (pre.length + 1) = b :: pre := by simp
        rw [hdrop] at hvt
        simp only [List.length_append] at hlen hfe
        by_cases hsep : r = 0x2028 ∨ r = 0x2029
        · have henc : appendStringLoop (fe' + 1) (b :: (pre ++ post)) =
              [92, 117, 50, 48, 50, hexDigit (r % 16)] ++ appendStringLoop fe' post := by
            simp only [appendStringLoop, hb, if_false, DecodeRune_take, hd]
            rw [if_neg (by omega), if_pos hsep, hdrop]
          rw [henc] at hfd ⊢
          simp only [List.length_append, List.length_cons, List.length_nil] at hfd
          have hih := ih post (by omega) hvt fe' fd' rest (by omega) (by omega)
          simp only [List.append_assoc, List.cons_append, List.nil_append]
          have hg : getu4 (92 :: 117 :: 50 :: 48 :: 50 :: hexDigit (r % 16) ::
              (appendStringLoop fe' post ++ 34 :: rest)) = some r := by
            have h := getu4_escape 2 0 2 (r % 16)
              (appendStringLoop fe' post ++ 34 :: rest) (by omega) (by omega) (by omega)
              (by omega)
            have e : ((2 * 16 + 0) * 16 + 2) * 16 + r % 16 = r := by omega
            rw [e] at h
            exact h
          have hsur : isSurrogate r = false := by
            simp only [isSurrogate, Bool.and_eq_false_iff, decide_eq_false_iff_not]
            omega
          rw [unquoteLoop_u fd' r _ _ _ _ _ hg hsur, hih, emit_some, henc_r]
          rfl
        · have henc : appendStringLoop (fe' + 1) (b :: (pre ++ post)) =
              (b :: pre) ++ appendStringLoop fe' post := by
            simp only [appendStringLoop, hb, if_false, DecodeRune_take, hd]
            rw [if_neg (by omega), if_neg hsep, hdrop, htake]
          rw [henc] at hfd ⊢
          simp only [List.length_append, List.length_cons] at hfd
          have hih := ih post (by omega) hvt fe' fd' rest (by omega) (by omega)
          have hd2 := hdec (appendStringLoop fe' post ++ 34 :: rest)
          have hdrop2 : (b :: pre ++ (appendStringLoop fe' post ++ 34 :: rest)).drop
              (pre.length + 1) = appendStringLoop fe' post ++ 34 :: rest := by simp
          rw [List.append_assoc, List.cons_append, unquoteLoop_multi fd' b _ (by omega)]
          rw [← List.cons_append, hd2]
          simp only [hdrop2]
          rw [hih, emit_some, henc_r]
          rfl


theorem parseString_appendString (s rest : GoString) (hv : ValidString s = true) :
    parseString (appendString s ++ rest) = some (s, rest) := by
  unfold appendString parseString
  simp only [List.cons_append, List.append_assoc, List.nil_append]
  exact unquoteLoop_appendStringLoop s.length s (le_refl _) ⟨s.length, hv⟩ s.length _ rest
    (le_refl _) (by simp)

theorem expect_append (p s : GoString) : expect p (p ++ s) = some s := by
  induction p with
  | nil => cases s <;> rfl
  | cons c p ih => simp [expect, ih]

/-- An object written by `marshalArticle` is read back by `parseArticle`, when the
title is valid UTF-8 and the ID fits a 64-bit `int`. -/
theorem parseArticle_marshalArticle (a : Article) (rest : GoString)
    (hv : ValidString a.Title = true) (hlo : -2 ^ 63 ≤ a.ID) (hhi : a.ID < 2 ^ 63) :
    parseArticle (marshalArticle a ++ rest) = some (a, rest) := by
  have hhead : ∀ d ∈ (lit ",\"title\":" ++ (appendString a.Title ++ ([125] ++ rest))).head?,
      ¬ (48 ≤ d ∧ d ≤ 57) ∧ d ≠ 46 ∧ d ≠ 101 ∧ d ≠ 69 := by
    intro d hd
    have h44 : 44 = d := by simpa [lit] using hd
    omega
  unfold parseArticle marshalArticle
  simp only [List.append_assoc]
  rw [expect_append]
  simp only []
  rw [parseInt_Itoa a.ID _ hlo hhi hhead]
  simp only []
  rw [expect_append]
  simp only []
  rw [parseString_appendString _ _ hv]
  simp

theorem marshalTail_length (l : List Article) : l.length ≤ (marshalTail l).length := by
  induction l with
  | nil => simp [marshalTail]
  | cons a l ih =>
    simp only [marshalTail, List.length_cons, List.length_append]
    omega

theorem parseElems_marshal (l : List Article) :
    ∀ (a : Article) (fuel : Nat) (rest : GoString), l.length < fuel →
    (∀ x ∈ a :: l, ValidString x.Title = true ∧ -2 ^ 63 ≤ x.ID ∧ x.ID < 2 ^ 63) →
    parseElems fuel (marshalArticle a ++ marshalTail l ++ 93 :: rest) = some (a :: l, rest) := by
  induction l with
  | nil =>
    intro a fuel rest hfuel h
    obtain ⟨k, rfl⟩ : ∃ k, fuel = k + 1 := ⟨fuel - 1, by omega⟩
    have ha := h a (List.mem_cons_self _ _)
    simp only [marshalTail, List.append_nil, parseElems]
    rw [parseArticle_marshalArticle a _ ha.1 ha.2.1 ha.2.2]
  | cons b l ih =>
    intro a fuel rest hfuel h
    obtain ⟨k, rfl⟩ : ∃ k, fuel = k + 1 := ⟨fuel - 1, by omega⟩
    have ha := h a (List.mem_cons_self _ _)
    simp only [List.length_cons] at hfuel
    simp only [marshalTail, parseElems, List.append_assoc, List.cons_append]
    rw [parseArticle_marshalArticle a _ ha.1 ha.2.1 ha.2.2]
    simp only []
    have := ih b k rest (by omega) (fun x hx => h x (List.mem_cons_of_mem _ hx))
    simp only [List.append_assoc] at this
    rw [this]
    rfl

/-- What `json.Marshal` writes for a list of articles with valid UTF-8 titles is read
back by `json.Unmarshal` as the same list. -/
theorem Unmarshal_Marshal (l : List Article)
    (h : ∀ x ∈ l, ValidString x.Title = true ∧ -2 ^ 63 ≤ x.ID ∧ x.ID < 2 ^ 63) :
    Unmarshal (Marshal l) = some l := by
  cases l with
  | nil => rfl
  | cons a l =>
    have hlen := marshalTail_length l
    have hshape : ∃ t, marshalArticle a = 123 :: t := ⟨_, rfl⟩
    obtain ⟨t, ht⟩ := hshape
    have hp := parseElems_marshal l a (marshalArticle a ++ marshalTail l ++ [93]).length []
      (by simp only [List.length_append, List.length_cons, List.length_nil]; omega) h
    have hM : Marshal (a :: l) = 91 :: 123 :: (t ++ marshalTail l ++ [93]) := by
      simp [Marshal, ht]
    rw [ht] at hp
    simp only [List.cons_append] at hp
    rw [hM]
    unfold Unmarshal
    rw [if_neg (by simp [lit])]
    simp only []
    rw [hp]


/-- C5, as stated, fails for a title that is not valid UTF-8: the article with the
one-byte title `0xFF` is written by `saveArticles` with the escape of U+FFFD in place
of the byte, and `loadArticles` returns the three-byte title `EF BF BD`. -/
theorem invalid_utf8_title_is_replaced :
    (saveArticles allOk [⟨1, [0xFF]⟩] []).2 =
        [⟨.writeFile (lit "articles.json") (lit "[\x7b\"id\":1,\"title\":\"\\ufffd\"\x7d]"), true⟩] ∧
      loadArticles (some (.ok (lit "[\x7b\"id\":1,\"title\":\"\\ufffd\"\x7d]"))) =
        some [⟨1, [0xEF, 0xBF, 0xBD]⟩] := by
  decide

/-- C5, amended: for every list of articles whose titles are valid UTF-8 (the IDs
being Go `int`s of 64 bits), `saveArticles` writes to `articles.json` bytes from
which `loadArticles` succeeds and returns the same articles, with the same IDs and
titles in the same order; and without an `articles.json`, `loadArticles` returns
the empty list and no error. -/
theorem load_restores_saved_articles (l : List Article) (io : Outcomes) (fs : List Event)
    (h : ∀ a ∈ l, ValidString a.Title = true ∧ -2 ^ 63 ≤ a.ID ∧ a.ID < 2 ^ 63) :
    (saveArticles io l fs).2 =
        ⟨.writeFile (lit "articles.json") (Marshal l), io.writeFile⟩ :: fs ∧
      loadArticles (some (.ok (Marshal l))) = some l ∧
      loadArticles none = some [] :=
  ⟨rfl, Unmarshal_Marshal l h, rfl⟩

/-- Witness of C5 amended: two articles, one with a title outside ASCII, one with
bytes the encoder escapes. -/
theorem load_restores_saved_articles_witness :
    (saveArticles allOk [⟨2, [0xC3, 0xA9, 0xE2, 0x80, 0xA8]⟩, ⟨-1, lit "a<b\n\"c\""⟩] []).2 =
        ⟨.writeFile (lit "articles.json")
          (Marshal [⟨2, [0xC3, 0xA9, 0xE2, 0x80, 0xA8]⟩, ⟨-1, lit "a<b\n\"c\""⟩]),
          allOk.writeFile⟩ :: [] ∧
      loadArticles (some (.ok
          (Marshal [⟨2, [0xC3, 0xA9, 0xE2, 0x80, 0xA8]⟩, ⟨-1, lit "a<b\n\"c\""⟩]))) =
        some [⟨2, [0xC3, 0xA9, 0xE2, 0x80, 0xA8]⟩, ⟨-1, lit "a<b\n\"c\""⟩] ∧
      loadArticles none = some [] :=
  load_restores_saved_articles [⟨2, [0xC3, 0xA9, 0xE2, 0x80, 0xA8]⟩, ⟨-1, lit "a<b\n\"c\""⟩]
    allOk [] (by decide)

end GOarticles
